import Mathlib

/-!
# Bank server: registry, waiting queue, dispatcher and session

A shallow embedding of `bank_server.c`.  Character buffers are lists of byte
values, C `int`s are integers reduced to 32 bits where the code computes with
them, the global tables are lists, and every function that talks to a socket
takes the sequence of results of its `read` calls and returns the messages it
sent.
-/

namespace Bank

/-! ## Constants (`#define`s of bank_server.c) -/

def MAX_WORKERS : Nat := 5
def MAX_CLIENTS : Nat := 25
def MAX_ACCOUNTS : Nat := 5
def BUFFER_SIZE : Nat := 1024
def MAX_QUEUE : Nat := 20

/-- A character buffer or C string: the byte values in order. -/
abbrev Bytes := List Nat

/-! ## C integers and the libc functions the server calls -/

/-- Value of a C `int` after an arithmetic result is stored: two's complement
reduction to 32 bits.  (C leaves signed overflow undefined; this is what the
usual targets compute.) -/
def wrap32 (x : Int) : Int := (x + 2147483648) % 4294967296 - 2147483648

def INT_MAX : Int := 2147483647
def INT_MIN : Int := -2147483648

/-- The string held in a buffer: the bytes before the first NUL. -/
def cstr (buf : Bytes) : Bytes := buf.takeWhile (fun b => b != 0)

/-- Effect of `buffer[strcspn(buffer, "\n")] = 0`: the string is cut at its
first newline. -/
def cut_newline (s : Bytes) : Bytes := s.takeWhile (fun b => b != 10)

/-- C `isspace` in the "C" locale: space, and `\t \n \v \f \r`. -/
def isspace (b : Nat) : Bool := b == 32 || (9 ≤ b && b ≤ 13)

/-- C `isdigit`. -/
def isdigit (b : Nat) : Bool := 48 ≤ b && b ≤ 57

/-- Value of the longest run of decimal digits at the start of `s`,
accumulated onto `acc`. -/
def digits_value : Nat → Bytes → Nat
  | acc, [] => acc
  | acc, b :: bs => if isdigit b then digits_value (acc * 10 + (b - 48)) bs else acc

/-- Splits an optional sign off the front of `s`: `true` for a minus sign. -/
def split_sign : Bytes → Bool × Bytes
  | 45 :: t => (true, t)
  | 43 :: t => (false, t)
  | s => (false, s)

/-- The conversion `strtol(s, NULL, 10)` with a 64-bit `long`: leading white
space is skipped, an optional sign is read, then the longest run of digits;
the value saturates at the ends of the `long` range, and is 0 when there is no
digit. -/
def strtol (s : Bytes) : Int :=
  let p := split_sign (s.dropWhile isspace)
  let v : Int := (digits_value 0 p.2 : Nat)
  if p.1 then max (-v) (-9223372036854775808) else min v 9223372036854775807

/-- C `atoi` as the C library implements it: `(int) strtol(s, NULL, 10)`. -/
def atoi (s : Bytes) : Int := wrap32 (strtol s)

/-- Decimal rendering of a `%d` argument. -/
def fmt_d (x : Int) : Bytes :=
  (if x < 0 then [45] else []) ++ (Nat.toDigits 10 x.natAbs).map Char.toNat

/-- C `strstr(hay, needle) != NULL` on strings. -/
def strstr : Bytes → Bytes → Bool
  | [], needle => needle.isPrefixOf []
  | h :: t, needle => needle.isPrefixOf (h :: t) || strstr t needle

/-! ## The account registry (`client_db`) -/

/-- Record `Account`: `bank_name`, `balance`, `is_active`. -/
structure Account where
  bank_name : Bytes
  balance : Int
  is_active : Bool
deriving DecidableEq

/-- Record `ClientInfo`: `client_id`, `ip_last_digit`, `accounts`,
`account_count`. -/
structure ClientInfo where
  client_id : Bytes
  ip_last_digit : Int
  accounts : List Account
  account_count : Nat
deriving DecidableEq

instance : Inhabited Account := ⟨⟨[], 0, false⟩⟩
instance : Inhabited ClientInfo := ⟨⟨[], 0, [], 0⟩⟩

/-- The global table `client_db`. -/
abbrev DB := List ClientInfo

/-- Reads `client_db[c]`. -/
def get_client (db : DB) (c : Nat) : ClientInfo := db.getD c default

/-- Reads `accounts[j]` of a client. -/
def get_account (ci : ClientInfo) (j : Nat) : Account := ci.accounts.getD j default

/-- Function `init_database`: identities pi200 .. pi224, no accounts. -/
def init_database : DB :=
  (List.range MAX_CLIENTS).map fun (i : Nat) =>
    { client_id := [112, 105] ++ fmt_d (200 + (i : Int))
      ip_last_digit := 200 + (i : Int)
      accounts := List.replicate MAX_ACCOUNTS ⟨[], 0, false⟩
      account_count := 0 }

/-! ## Socket traffic -/

/-- The results of the successive `read` calls on a connection.  An empty
entry, and the end of the list, stand for a `read` that returns `<= 0`. -/
abbrev Reads := List Bytes

/-- The string in a zeroed buffer of `BUFFER_SIZE` bytes after a `read` has
put the bytes `d` into it: the bytes before the first NUL.  A `read` that
fills the whole buffer leaves it without a terminator; the string is then
taken to end with the buffer. -/
def buffer_of (d : Bytes) : Bytes := cstr (d.take BUFFER_SIZE)

/-- One `memset(buffer, 0, BUFFER_SIZE); read(fd, buffer, BUFFER_SIZE)`:
`none` when `bytes_read <= 0`, otherwise the string left in the buffer. -/
def read_buffer : Reads → Option Bytes × Reads
  | [] => (none, [])
  | d :: rest => (if d = [] then none else some (buffer_of d), rest)

/-- The messages the server sends, one constructor per message text, with the
values formatted into the text. -/
inductive Msg where
  | reject_ip
  | wait_notice
  | welcome (client_id : Bytes) (worker_id : Nat)
  | menu_prompt
  | unknown_menu
  | ask_more
  | goodbye
  | open_limit (max : Nat)
  | open_prompt
  | open_done (bank_name : Bytes) (count : Nat) (max : Nat)
  | accounts_none
  | accounts_list (lines : List (Nat × Bytes × Int))
  | deposit_target_prompt
  | deposit_no_id
  | deposit_no_accounts (client_id : Bytes)
  | deposit_select (client_id : Bytes) (lines : List (Nat × Bytes))
  | bad_account_number
  | deposit_amount_prompt
  | bad_amount
  | deposit_done (client_id : Bytes) (bank_name : Bytes) (amount : Int) (balance : Int)
  | withdraw_no_accounts
  | withdraw_select_prompt
  | password_prompt
  | password_mismatch
  | withdraw_amount_prompt
  | insufficient (balance : Int) (amount : Int)
  | withdraw_done (bank_name : Bytes) (amount : Int) (balance : Int)
deriving DecidableEq

/-! ## Registry operations -/

/-- Writes `client_db[c]`. -/
def set_client (db : DB) (c : Nat) (ci : ClientInfo) : DB := db.set c ci

/-- Stores `b` in `client_db[c].accounts[j].balance`. -/
def set_balance (db : DB) (c j : Nat) (b : Int) : DB :=
  let ci := get_client db c
  let a := get_account ci j
  set_client db c { ci with accounts := ci.accounts.set j { a with balance := b } }

/-- First locked region of `process_account_open`: the test
`client->account_count >= MAX_ACCOUNTS`. -/
def account_open_full (db : DB) (client : Nat) : Bool :=
  decide ((get_client db client).account_count ≥ MAX_ACCOUNTS)

/-- Second locked region of `process_account_open`: `idx = account_count`,
`strncpy(bank_name, buffer, 49)`, balance 0, active, `account_count++`.
A store at an index outside the array is not modelled. -/
def account_open_append (db : DB) (client : Nat) (buffer : Bytes) : DB :=
  let ci := get_client db client
  let idx := ci.account_count
  set_client db client
    { ci with
      accounts := ci.accounts.set idx ⟨buffer.take 49, 0, true⟩
      account_count := ci.account_count + 1 }

/-- Function `process_account_open`: the registry afterwards, the reads left,
and the messages sent. -/
def process_account_open (client : Nat) (db : DB) (reads : Reads) : DB × Reads × List Msg :=
  if account_open_full db client then
    (db, reads, [Msg.open_limit MAX_ACCOUNTS])
  else
    match read_buffer reads with
    | (none, rest) => (db, rest, [Msg.open_prompt])
    | (some buffer, rest) =>
      let idx := (get_client db client).account_count
      let db1 := account_open_append db client (cut_newline buffer)
      let ci := get_client db1 client
      (db1, rest,
        [Msg.open_prompt, Msg.open_done (get_account ci idx).bank_name ci.account_count MAX_ACCOUNTS])

/-- The lines `i+1. bank_name - balance` that `show_accounts` prints, one per
active account below `account_count`. -/
def account_lines (ci : ClientInfo) : List (Nat × Bytes × Int) :=
  ((List.range ci.account_count).filter fun i => (get_account ci i).is_active).map
    fun i => (i + 1, (get_account ci i).bank_name, (get_account ci i).balance)

/-- Function `show_accounts`: the listing message. -/
def show_accounts (client : Nat) (db : DB) : Msg :=
  let ci := get_client db client
  if ci.account_count = 0 then Msg.accounts_none else Msg.accounts_list (account_lines ci)

/-- The lines `i+1. bank_name` of the account list in `process_deposit`. -/
def deposit_lines (ci : ClientInfo) : List (Nat × Bytes) :=
  ((List.range ci.account_count).filter fun i => (get_account ci i).is_active).map
    fun i => (i + 1, (get_account ci i).bank_name)

/-- The target search of `process_deposit`: the first `i` with
`strcmp(client_db[i].client_id, buffer) == 0`. -/
def find_target (db : DB) (buffer : Bytes) : Option Nat :=
  (List.range MAX_CLIENTS).find? fun i => (get_client db i).client_id == buffer

set_option linter.unusedVariables false in
/-- Function `process_deposit`. (`client` only appears in the server log.) -/
def process_deposit (client : Nat) (db : DB) (reads : Reads) : DB × Reads × List Msg :=
  match read_buffer reads with
  | (none, r1) => (db, r1, [Msg.deposit_target_prompt])
  | (some buf1, r1) =>
    match find_target db (cut_newline buf1) with
    | none => (db, r1, [Msg.deposit_target_prompt, Msg.deposit_no_id])
    | some target =>
      let t := get_client db target
      if t.account_count = 0 then
        (db, r1, [Msg.deposit_target_prompt, Msg.deposit_no_accounts t.client_id])
      else
        let sent := [Msg.deposit_target_prompt, Msg.deposit_select t.client_id (deposit_lines t)]
        match read_buffer r1 with
        | (none, r2) => (db, r2, sent)
        | (some buf2, r2) =>
          let account_num := wrap32 (atoi buf2 - 1)
          if account_num < 0 ∨ account_num ≥ (t.account_count : Int) then
            (db, r2, sent ++ [Msg.bad_account_number])
          else
            match read_buffer r2 with
            | (none, r3) => (db, r3, sent ++ [Msg.deposit_amount_prompt])
            | (some buf3, r3) =>
              let amount := atoi buf3
              if amount ≤ 0 then
                (db, r3, sent ++ [Msg.deposit_amount_prompt, Msg.bad_amount])
              else
                let j := account_num.toNat
                let balance := wrap32 ((get_account t j).balance + amount)
                (set_balance db target j balance, r3,
                  sent ++ [Msg.deposit_amount_prompt,
                    Msg.deposit_done t.client_id (get_account t j).bank_name amount balance])

/-- Function `process_withdraw`. -/
def process_withdraw (client : Nat) (db : DB) (reads : Reads) : DB × Reads × List Msg :=
  let c := get_client db client
  if c.account_count = 0 then
    (db, reads, [Msg.withdraw_no_accounts])
  else
    let sent := [show_accounts client db, Msg.withdraw_select_prompt]
    match read_buffer reads with
    | (none, r1) => (db, r1, sent)
    | (some buf1, r1) =>
      let account_num := wrap32 (atoi buf1 - 1)
      if account_num < 0 ∨ account_num ≥ (c.account_count : Int) then
        (db, r1, sent ++ [Msg.bad_account_number])
      else
        match read_buffer r1 with
        | (none, r2) => (db, r2, sent ++ [Msg.password_prompt])
        | (some buf2, r2) =>
          let password := atoi buf2
          if password ≠ c.ip_last_digit then
            (db, r2, sent ++ [Msg.password_prompt, Msg.password_mismatch])
          else
            match read_buffer r2 with
            | (none, r3) => (db, r3, sent ++ [Msg.password_prompt, Msg.withdraw_amount_prompt])
            | (some buf3, r3) =>
              let amount := atoi buf3
              if amount ≤ 0 then
                (db, r3, sent ++ [Msg.password_prompt, Msg.withdraw_amount_prompt, Msg.bad_amount])
              else
                let j := account_num.toNat
                let a := get_account c j
                if a.balance < amount then
                  (db, r3, sent ++ [Msg.password_prompt, Msg.withdraw_amount_prompt,
                    Msg.insufficient a.balance amount])
                else
                  let balance := wrap32 (a.balance - amount)
                  (set_balance db client j balance, r3,
                    sent ++ [Msg.password_prompt, Msg.withdraw_amount_prompt,
                      Msg.withdraw_done a.bank_name amount balance])

/-! ## The session (`handle_client`) -/

/-- Function `get_menu_choice`: 1 when the message holds both "통장" and
"개설", else 2 when it holds "입금", else 3 when it holds "출금", else 0. -/
def get_menu_choice (message : Bytes) : Nat :=
  if strstr message [237, 134, 181, 236, 158, 165] && strstr message [234, 176, 156, 236, 132, 164]
  then 1
  else if strstr message [236, 158, 133, 234, 184, 136] then 2
  else if strstr message [236, 182, 156, 234, 184, 136] then 3
  else 0

/-- The stop tokens of the continue question, as UTF-8 bytes:
"아니", "없", "종료", "끝", "no", "No", "NO". -/
def stop_tokens : List Bytes :=
  [[236, 149, 132, 235, 139, 136], [236, 151, 134], [236, 162, 133, 235, 163, 140],
   [235, 129, 157], [110, 111], [78, 111], [78, 79]]

/-- The test of `handle_client` that ends the loop: the disjunction of the
seven `strstr(buffer, token) != NULL`. -/
def is_stop_reply (buffer : Bytes) : Bool :=
  strstr buffer [236, 149, 132, 235, 139, 136] ||
  strstr buffer [236, 151, 134] ||
  strstr buffer [236, 162, 133, 235, 163, 140] ||
  strstr buffer [235, 129, 157] ||
  strstr buffer [110, 111] ||
  strstr buffer [78, 111] ||
  strstr buffer [78, 79]

/-- How `handle_client` came to return. -/
inductive Ending where
  | farewell
  | disconnected
  | out_of_fuel
deriving DecidableEq

/-- Result of a session: the registry, everything sent, and how it ended. -/
structure SessionResult where
  db : DB
  sent : List Msg
  ending : Ending
deriving DecidableEq

/-- The tail of the loop body of `handle_client`: the continue question is
sent and one reply read; a stop reply leaves the loop and the goodbye is sent,
any other reply goes round the loop again (`loop`). -/
def continue_question (loop : DB → Reads → List Msg → SessionResult)
    (db : DB) (reads : Reads) (sent : List Msg) : SessionResult :=
  match read_buffer reads with
  | (none, _) => ⟨db, sent ++ [Msg.ask_more], Ending.disconnected⟩
  | (some buffer, rest) =>
    if is_stop_reply buffer then ⟨db, sent ++ [Msg.ask_more, Msg.goodbye], Ending.farewell⟩
    else loop db rest (sent ++ [Msg.ask_more])

/-- The `while (1)` loop of `handle_client`, one iteration per unit of fuel. -/
def handle_loop (client : Nat) : Nat → DB → Reads → List Msg → SessionResult
  | 0, db, _, sent => ⟨db, sent, Ending.out_of_fuel⟩
  | fuel + 1, db, reads, sent =>
    match read_buffer reads with
    | (none, _) => ⟨db, sent ++ [Msg.menu_prompt], Ending.disconnected⟩
    | (some buffer, rest) =>
      match get_menu_choice buffer with
      | 1 =>
        let r := process_account_open client db rest
        continue_question (handle_loop client fuel) r.1 r.2.1 (sent ++ [Msg.menu_prompt] ++ r.2.2)
      | 2 =>
        let r := process_deposit client db rest
        continue_question (handle_loop client fuel) r.1 r.2.1 (sent ++ [Msg.menu_prompt] ++ r.2.2)
      | 3 =>
        let r := process_withdraw client db rest
        continue_question (handle_loop client fuel) r.1 r.2.1 (sent ++ [Msg.menu_prompt] ++ r.2.2)
      | _ => handle_loop client fuel db rest (sent ++ [Msg.menu_prompt, Msg.unknown_menu])

/-- Function `handle_client`: the welcome, then the loop.  Every iteration
consumes at least one read, so `reads.length + 1` iterations are enough. -/
def handle_client (worker_id : Nat) (client : Nat) (db : DB) (reads : Reads) : SessionResult :=
  handle_loop client (reads.length + 1) db reads
    [Msg.welcome (get_client db client).client_id worker_id]

/-- One registry operation of a session, with the reads it is given. -/
inductive Op where
  | account_open (client : Nat) (reads : Reads)
  | deposit (client : Nat) (reads : Reads)
  | withdraw (client : Nat) (reads : Reads)

/-- The registry after one operation. -/
def apply_op (db : DB) : Op → DB
  | Op.account_open client reads => (process_account_open client db reads).1
  | Op.deposit client reads => (process_deposit client db reads).1
  | Op.withdraw client reads => (process_withdraw client db reads).1

/-- The registry after a sequence of operations executed one after another. -/
def run_ops (db : DB) (ops : List Op) : DB := ops.foldl apply_op db

/-! ## The waiting queue -/

/-- Record `WaitingQueue`: the ring `queue[MAX_QUEUE]`, `front`, `rear`,
`count`. -/
structure WaitingQueue where
  queue : List Int
  front : Nat
  rear : Nat
  count : Nat
deriving DecidableEq

/-- Function `init_waiting_queue` on the zero-initialised global. -/
def init_waiting_queue : WaitingQueue := ⟨List.replicate MAX_QUEUE 0, 0, 0, 0⟩

/-- Function `enqueue`. -/
def enqueue (q : WaitingQueue) (client_fd : Int) : WaitingQueue :=
  if q.count < MAX_QUEUE then
    { queue := q.queue.set q.rear client_fd
      front := q.front
      rear := (q.rear + 1) % MAX_QUEUE
      count := q.count + 1 }
  else q

/-- Function `dequeue`: the value returned and the queue afterwards. -/
def dequeue (q : WaitingQueue) : Int × WaitingQueue :=
  if q.count > 0 then
    (q.queue.getD q.front 0,
      { queue := q.queue
        front := (q.front + 1) % MAX_QUEUE
        rear := q.rear
        count := q.count - 1 })
  else (-1, q)

/-- The connections waiting in the ring, oldest first: the `count` entries
from `front` on, cyclically. -/
def contents (q : WaitingQueue) : List Int :=
  (List.range q.count).map fun k => q.queue.getD ((q.front + k) % MAX_QUEUE) 0

/-- A call on the waiting queue. -/
inductive QueueOp where
  | enq (client_fd : Int)
  | deq
deriving DecidableEq

/-- Record of a run of queue calls: the queue, the value each `dequeue`
returned, and the handles that `enqueue` stored, both in call order. -/
structure QueueRun where
  q : WaitingQueue
  returned : List Int
  stored : List Int
deriving DecidableEq

/-- One call on the ring buffer. -/
def queue_call (r : QueueRun) : QueueOp → QueueRun
  | QueueOp.enq fd =>
    { q := enqueue r.q fd
      returned := r.returned
      stored := if r.q.count < MAX_QUEUE then r.stored ++ [fd] else r.stored }
  | QueueOp.deq =>
    { q := (dequeue r.q).2, returned := r.returned ++ [(dequeue r.q).1], stored := r.stored }

/-- A sequence of calls from `init_waiting_queue`. -/
def run_queue (ops : List QueueOp) : QueueRun :=
  ops.foldl queue_call ⟨init_waiting_queue, [], []⟩

/-- The specification's waiting queue, a FIFO list bounded by Q = 20: a call
appends at the back when fewer than 20 are waiting and otherwise changes
nothing, or removes and returns the front (-1 when nobody waits). -/
def fifo_call (s : List Int × List Int) : QueueOp → List Int × List Int
  | QueueOp.enq fd => (if s.1.length < 20 then s.1 ++ [fd] else s.1, s.2)
  | QueueOp.deq =>
    match s.1 with
    | [] => ([], s.2 ++ [-1])
    | x :: t => (t, s.2 ++ [x])

/-- A sequence of calls on the specification's queue, from empty: the waiting
list and the values returned by the dequeues. -/
def run_fifo (ops : List QueueOp) : List Int × List Int := ops.foldl fifo_call ([], [])

/-! ## Authentication -/

/-- The ordinary characters of a `sscanf` format matched against the input:
the input left after them, `none` on a mismatch or at the end of the input. -/
def match_literal : Bytes → Bytes → Option Bytes
  | [], s => some s
  | _ :: _, [] => none
  | c :: cs, b :: bs => if c = b then match_literal cs bs else none

/-- The conversion `%d` of `sscanf`: white space is skipped, an optional sign
read, and at least one digit is needed; the value is stored in an `int`. -/
def scan_d (s : Bytes) : Option Int :=
  match (split_sign (s.dropWhile isspace)).2 with
  | [] => none
  | b :: _ => if isdigit b then some (atoi s) else none

/-- Function `find_client_by_ip`: the index into `client_db`, `none` for NULL.
The format is "10.10.16.%d" and the local test address "127.0.0.1". -/
def find_client_by_ip (ip : Bytes) : Option Nat :=
  match (match_literal [49, 48, 46, 49, 48, 46, 49, 54, 46] ip).bind scan_d with
  | none => if ip = [49, 50, 55, 46, 48, 46, 48, 46, 49] then some 0 else none
  | some last_octet =>
    if last_octet < 200 ∨ last_octet > 224 then none else some (last_octet - 200).toNat

/-- Text of the IPv4 address a.b.c.d as `inet_ntop` writes it: four decimal
numbers separated by dots. -/
def ip_text (a b c d : Nat) : Bytes :=
  fmt_d a ++ [46] ++ fmt_d b ++ [46] ++ fmt_d c ++ [46] ++ fmt_d d

/-! ## The dispatcher: worker slots, acceptor and workers -/

/-- Record `WorkerThread`: `worker_id`, `is_busy`, `client_fd`. -/
structure WorkerThread where
  worker_id : Nat
  is_busy : Bool
  client_fd : Int
deriving DecidableEq

instance : Inhabited WorkerThread := ⟨⟨0, false, -1⟩⟩

/-- The slot table as `main` sets it up before the accept loop. -/
def init_workers : List WorkerThread :=
  (List.range MAX_WORKERS).map fun (i : Nat) => ⟨i + 1, false, -1⟩

/-- The scan of `main` under `workers_mutex`, from slot `i` on: the first slot
that is not busy is marked busy and gets `client_fd`; the result is the table
and `assigned` (-1 when every slot is busy). -/
def scan_assign (client_fd : Int) : Nat → List WorkerThread → List WorkerThread × Int
  | _, [] => ([], -1)
  | i, w :: ws =>
    if !w.is_busy then
      ({ w with is_busy := true, client_fd := client_fd } :: ws, (i : Int))
    else
      ((w :: (scan_assign client_fd (i + 1) ws).1), (scan_assign client_fd (i + 1) ws).2)

/-- The end of a session in `worker_thread_func`, under `workers_mutex`: the
worker of slot `w` takes the next waiting connection, or goes idle. -/
def worker_finish (workers : List WorkerThread) (q : WaitingQueue) (w : Nat) :
    List WorkerThread × WaitingQueue :=
  let next_client := (dequeue q).1
  let slot := workers.getD w default
  if next_client ≠ -1 then
    (workers.set w { slot with client_fd := next_client, is_busy := true }, (dequeue q).2)
  else
    (workers.set w { slot with is_busy := false, client_fd := -1 }, (dequeue q).2)

/-- State of the dispatcher: the slot table, the waiting queue, the connection
the acceptor holds between a scan that found every slot busy and its
`enqueue`, and the notices sent so far with the connection they went to. -/
structure Dispatcher where
  workers : List WorkerThread
  waiting_queue : WaitingQueue
  pending : Option Int
  notices : List (Int × Msg)
deriving DecidableEq

/-- The dispatcher when the accept loop starts. -/
def init_dispatcher : Dispatcher := ⟨init_workers, init_waiting_queue, none, []⟩

/-- The atomic steps of the dispatcher. -/
inductive Event where
  | accept (client_ip : Bytes) (client_fd : Int)
  | enqueue_pending
  | finish (w : Nat)
deriving DecidableEq

/-- One step.  `accept`: the acceptor, holding no connection, accepts one,
rejects an unregistered address, and otherwise scans the slots under
`workers_mutex`.  `enqueue_pending`: after a scan that assigned nothing, the
acceptor sends the wait notice and calls `enqueue`.  `finish w`: the worker of
a busy slot ends its session.  A step that is not enabled changes nothing. -/
def step (d : Dispatcher) : Event → Dispatcher
  | Event.accept client_ip client_fd =>
    match d.pending with
    | some _ => d
    | none =>
      match find_client_by_ip client_ip with
      | none => { d with notices := d.notices ++ [(client_fd, Msg.reject_ip)] }
      | some _ =>
        let r := scan_assign client_fd 0 d.workers
        if r.2 = -1 then { d with workers := r.1, pending := some client_fd }
        else { d with workers := r.1 }
  | Event.enqueue_pending =>
    match d.pending with
    | none => d
    | some client_fd =>
      { d with
        waiting_queue := enqueue d.waiting_queue client_fd
        pending := none
        notices := d.notices ++ [(client_fd, Msg.wait_notice)] }
  | Event.finish w =>
    if (d.workers.getD w default).is_busy then
      let r := worker_finish d.workers d.waiting_queue w
      { d with workers := r.1, waiting_queue := r.2 }
    else d

/-- A sequence of steps from a given state. -/
def run (d : Dispatcher) (evs : List Event) : Dispatcher := evs.foldl step d

/-! ## Sample runs -/

/-- Identity pi200 opens five accounts, labelled A to E. -/
def five_opens : List Op :=
  [Op.account_open 0 [[65]], Op.account_open 0 [[66]], Op.account_open 0 [[67]],
   Op.account_open 0 [[68]], Op.account_open 0 [[69]]]

/-- Identity pi200 opens an account, deposits 2147483647 into it and then
deposits 1 more (target "pi200", selection "1"). -/
def overflow_ops : List Op :=
  [Op.account_open 0 [[65]],
   Op.deposit 0 [[112, 105, 50, 48, 48], [49], [50, 49, 52, 55, 52, 56, 51, 54, 52, 55]],
   Op.deposit 0 [[112, 105, 50, 48, 48], [49], [49]]]

/-! ## Well-formed registries -/

/-- What every registry built by the operations satisfies: 25 identities with
the ids and secrets of `init_database`, five account slots each, at most five
accounts in use, the accounts in use active, and every balance an `int`. -/
structure RegOK (db : DB) : Prop where
  length_eq : db.length = MAX_CLIENTS
  ids : ∀ c, (get_client db c).client_id = (get_client init_database c).client_id
  secrets : ∀ c, (get_client db c).ip_last_digit = (get_client init_database c).ip_last_digit
  accounts_length : ∀ c, c < MAX_CLIENTS → (get_client db c).accounts.length = MAX_ACCOUNTS
  count_le : ∀ c, (get_client db c).account_count ≤ MAX_ACCOUNTS
  active : ∀ c j, j < (get_client db c).account_count →
    (get_account (get_client db c) j).is_active = true
  in_range : ∀ c j, INT_MIN ≤ (get_account (get_client db c) j).balance ∧
    (get_account (get_client db c) j).balance ≤ INT_MAX

/-- Identity pi200 opens account "A" and deposits 100 into it. -/
def open_and_deposit : List Op :=
  [Op.account_open 0 [[65]], Op.deposit 0 [[112, 105, 50, 48, 48], [49], [49, 48, 48]]]

/-- Scenario A, first step: identity pi200 opens account "Alpha". -/
def scenario_a_open : List Op := [Op.account_open 0 [[65, 108, 112, 104, 97, 10]]]

/-- Scenario A as one session of pi200: "통장 개설", "Alpha", "예", "입금",
"pi200", "1", "100", "예", "출금", and then the connection closes. -/
def scenario_a_session : Reads :=
  [[237, 134, 181, 236, 158, 165, 32, 234, 176, 156, 236, 132, 164, 10],
   [65, 108, 112, 104, 97, 10], [236, 152, 136, 10],
   [236, 158, 133, 234, 184, 136, 10], [112, 105, 50, 48, 48, 10], [49, 10], [49, 48, 48, 10],
   [236, 152, 136, 10], [236, 182, 156, 234, 184, 136, 10]]

/-! ## Well-formed waiting queues -/

/-- What every waiting queue built by `enqueue` and `dequeue` satisfies: the
ring has `MAX_QUEUE` entries, `front` is an index into it, at most `MAX_QUEUE`
connections wait, and `rear` is `count` places after `front`, cyclically. -/
structure QueueOK (q : WaitingQueue) : Prop where
  length_eq : q.queue.length = MAX_QUEUE
  front_lt : q.front < MAX_QUEUE
  count_le : q.count ≤ MAX_QUEUE
  rear_eq : q.rear = (q.front + q.count) % MAX_QUEUE

/-- A short run of queue calls. -/
def sample_queue_ops : List QueueOp :=
  [QueueOp.enq 7, QueueOp.enq 8, QueueOp.deq, QueueOp.enq 9, QueueOp.deq, QueueOp.deq,
   QueueOp.deq]

/-- A schedule of the dispatcher: five connections (handles 10 to 14) fill the
five slots; connection 15 arrives and the scan finds every slot busy; before
the acceptor reaches its `enqueue`, the worker of slot 0 ends its session,
finds the queue empty and goes idle; the acceptor then enqueues 15; connection
16 arrives. -/
def race_schedule : List Event :=
  [Event.accept (ip_text 10 10 16 200) 10, Event.accept (ip_text 10 10 16 201) 11,
   Event.accept (ip_text 10 10 16 202) 12, Event.accept (ip_text 10 10 16 203) 13,
   Event.accept (ip_text 10 10 16 204) 14, Event.accept (ip_text 10 10 16 205) 15,
   Event.finish 0, Event.enqueue_pending, Event.accept (ip_text 10 10 16 206) 16]

/-! ## Concurrent sessions: the regions run under `db_mutex` -/

/-- The locked region that ends `process_deposit`: `balance += amount` on
account `j` of `target`. -/
def deposit_region (db : DB) (target j : Nat) (amount : Int) : DB :=
  set_balance db target j (wrap32 ((get_account (get_client db target) j).balance + amount))

/-- The locked region that ends `process_withdraw`: the funds test and
`balance -= amount` on account `j` of `client`; `true` when the money was
paid out. -/
def withdraw_region (db : DB) (client j : Nat) (amount : Int) : DB × Bool :=
  let a := get_account (get_client db client) j
  if a.balance < amount then (db, false)
  else (set_balance db client j (wrap32 (a.balance - amount)), true)

/-- An update a session has validated (account index in range, amount > 0)
and for which it is about to take `db_mutex`. -/
inductive Update where
  | deposit (target j : Nat) (amount : Int)
  | withdraw (client j : Nat) (amount : Int)
deriving DecidableEq

/-- The locked region of an update: the registry afterwards, and whether the
update succeeded. -/
def run_update (db : DB) : Update → DB × Bool
  | Update.deposit target j amount => (deposit_region db target j amount, true)
  | Update.withdraw client j amount => withdraw_region db client j amount

/-- Concurrent sessions on the registry: the registry, for each session the
updates it still has to make, and the updates that succeeded, in the order in
which the lock was taken. -/
structure Shared where
  db : DB
  pending : List (List Update)
  succeeded : List Update
deriving DecidableEq

/-- Session `s` takes `db_mutex` and runs the locked region of its next
update. -/
def take_lock (st : Shared) (s : Nat) : Shared :=
  match st.pending.getD s [] with
  | [] => st
  | u :: us =>
    { db := (run_update st.db u).1
      pending := st.pending.set s us
      succeeded := if (run_update st.db u).2 then st.succeeded ++ [u] else st.succeeded }

/-- An interleaving: the sessions take the lock in the order of `schedule`. -/
def interleave (st : Shared) (schedule : List Nat) : Shared := schedule.foldl take_lock st

/-- What an update adds to the balance of account `j` of identity `c` when it
succeeds: its amount for a deposit into that account, minus its amount for a
withdrawal from it, and 0 for an update of another account. -/
def net_amount (c j : Nat) : Update → Int
  | Update.deposit target k amount => if target = c ∧ k = j then amount else 0
  | Update.withdraw client k amount => if client = c ∧ k = j then -amount else 0

/-- Sum of the deposits minus sum of the withdrawals among `us` on account
`j` of identity `c`. -/
def net_sum (c j : Nat) (us : List Update) : Int := (us.map (net_amount c j)).sum

/-- Two sessions deposit into account 1 of pi200 at the same time, one
2147483647 and the other 1. -/
def concurrent_deposits : Shared :=
  { db := run_ops init_database scenario_a_open
    pending := [[Update.deposit 0 0 2147483647], [Update.deposit 0 0 1]]
    succeeded := [] }

/-- Where a session stands in `process_account_open`: outside it, or between
a capacity check that passed and the append (the lock released, the label
being read). -/
inductive OpenPC where
  | idle
  | passed
deriving DecidableEq

instance : Inhabited OpenPC := ⟨OpenPC.idle⟩

/-- Concurrent sessions in `process_account_open`: the registry, the position
of each session, and the index `idx` at which each append stored, in order. -/
structure OpenRun where
  db : DB
  pcs : List OpenPC
  stores : List Nat
deriving DecidableEq

/-- The locked regions of `process_account_open`, run by session `s` for
identity `client`. -/
inductive OpenEvent where
  | check (s client : Nat)
  | append (s client : Nat) (buffer : Bytes)
deriving DecidableEq

/-- One locked region.  `check`: a session outside the function runs the
capacity test and goes on when the test passes.  `append`: a session that
passed the test stores the account at `idx = account_count` and increments the
count.  A region that is not the session's next one changes nothing. -/
def open_step (st : OpenRun) : OpenEvent → OpenRun
  | OpenEvent.check s client =>
    if st.pcs.getD s default = OpenPC.idle ∧ account_open_full st.db client = false then
      { st with pcs := st.pcs.set s OpenPC.passed }
    else st
  | OpenEvent.append s client buffer =>
    if st.pcs.getD s default = OpenPC.passed then
      { db := account_open_append st.db client buffer
        pcs := st.pcs.set s OpenPC.idle
        stores := st.stores ++ [(get_client st.db client).account_count] }
    else st

/-- A sequence of locked regions of two sessions, from `init_database`. -/
def open_run (evs : List OpenEvent) : OpenRun :=
  evs.foldl open_step ⟨init_database, [OpenPC.idle, OpenPC.idle], []⟩

/-- Two sessions of pi200.  The first opens four accounts; then both ask to
open one more: each runs the capacity check while the count is 4, and after
that each runs its append. -/
def open_race : List OpenEvent :=
  [OpenEvent.check 0 0, OpenEvent.append 0 0 [65], OpenEvent.check 0 0, OpenEvent.append 0 0 [66],
   OpenEvent.check 0 0, OpenEvent.append 0 0 [67], OpenEvent.check 0 0, OpenEvent.append 0 0 [68],
   OpenEvent.check 0 0, OpenEvent.check 1 0,
   OpenEvent.append 0 0 [69], OpenEvent.append 1 0 [70]]

/-- An optionally signed decimal numeral: an optional `+` or `-` followed by
one or more digits and nothing else. -/
def is_numeral (s : Bytes) : Bool :=
  (split_sign s).2 != [] && (split_sign s).2.all isdigit

/-- The amount of an update. -/
def update_amount : Update → Int
  | Update.deposit _ _ amount => amount
  | Update.withdraw _ _ amount => amount

/-- What an update can add to the balance of account `j` of identity `c`: its
amount for a deposit into that account, 0 otherwise. -/
def deposit_amount (c j : Nat) : Update → Int
  | Update.deposit target k amount => if target = c ∧ k = j then amount else 0
  | Update.withdraw _ _ _ => 0

/-- Sum of the deposits into account `j` of identity `c` that the sessions
still have to make. -/
def pending_deposits (c j : Nat) (pending : List (List Update)) : Int :=
  (pending.map fun l => (l.map (deposit_amount c j)).sum).sum

/-! # Theorems -/

/-! ## Reading and writing the registry -/

theorem get_set_client (db : DB) (c c' : Nat) (ci : ClientInfo) :
    get_client (set_client db c ci) c' =
      if c = c' ∧ c < db.length then ci else get_client db c' := by
  unfold get_client set_client
  simp only [List.getD_eq_getElem?_getD, List.getElem?_set]
  by_cases h : c = c'
  · subst h
    by_cases h2 : c < db.length
    · simp [h2]
    · simp [h2]
      rw [List.getElem?_eq_none (by omega)]
      rfl
  · simp [h]

theorem count_set_balance (db : DB) (c j c' : Nat) (b : Int) :
    (get_client (set_balance db c j b) c').account_count = (get_client db c').account_count := by
  unfold set_balance
  simp only [get_set_client]
  split
  · rename_i h; rw [h.1]
  · rfl

theorem count_init_database (c : Nat) : (get_client init_database c).account_count = 0 := by
  unfold get_client init_database
  simp only [List.getD_eq_getElem?_getD, List.getElem?_map]
  cases h : (List.range MAX_CLIENTS)[c]? <;> rfl

theorem wrap32_range (x : Int) : INT_MIN ≤ wrap32 x ∧ wrap32 x ≤ INT_MAX := by
  unfold wrap32 INT_MIN INT_MAX
  omega

theorem wrap32_id (x : Int) (h1 : INT_MIN ≤ x) (h2 : x ≤ INT_MAX) : wrap32 x = x := by
  unfold wrap32
  unfold INT_MIN at h1
  unfold INT_MAX at h2
  omega

theorem get_account_default (j : Nat) : get_account default j = default := by
  unfold get_account
  simp [List.getD_eq_getElem?_getD]
  rfl

theorem get_client_of_ge (db : DB) (c : Nat) (h : db.length ≤ c) :
    get_client db c = default := by
  unfold get_client
  simp [List.getD_eq_getElem?_getD, List.getElem?_eq_none h]

theorem get_client_init (c : Nat) (h : c < MAX_CLIENTS) :
    get_client init_database c =
      ⟨[112, 105] ++ fmt_d (200 + (c : Int)), 200 + (c : Int),
        List.replicate MAX_ACCOUNTS ⟨[], 0, false⟩, 0⟩ := by
  unfold get_client init_database
  simp only [List.getD_eq_getElem?_getD, List.getElem?_map]
  rw [List.getElem?_eq_getElem (by simpa using h)]
  simp

theorem init_account (c j : Nat) :
    get_account (get_client init_database c) j = ⟨[], 0, false⟩ := by
  by_cases h : c < MAX_CLIENTS
  · rw [get_client_init c h]
    unfold get_account
    simp only [List.getD_eq_getElem?_getD, List.getElem?_replicate]
    split <;> rfl
  · rw [get_client_of_ge _ _ (by simpa [init_database] using h), get_account_default]; rfl

theorem regOK_init : RegOK init_database := by
  refine ⟨by decide, fun _ => rfl, fun _ => rfl, ?_, ?_, ?_, ?_⟩
  · intro c hc
    rw [get_client_init c hc]; simp
  · intro c
    rw [count_init_database]; exact Nat.zero_le _
  · intro c j h
    rw [count_init_database] at h; omega
  · intro c j
    rw [init_account]
    decide

theorem get_account_set (ci : ClientInfo) (j j' : Nat) (a : Account) (cid : Bytes) (pw : Int)
    (n : Nat) :
    get_account ⟨cid, pw, ci.accounts.set j a, n⟩ j' =
      if j = j' ∧ j < ci.accounts.length then a else get_account ci j' := by
  unfold get_account
  simp only [List.getD_eq_getElem?_getD, List.getElem?_set]
  by_cases h : j = j'
  · subst h
    by_cases h2 : j < ci.accounts.length
    · simp [h2]
    · simp [h2]
      rw [List.getElem?_eq_none (by omega)]
      rfl
  · simp [h]

/-- Storing an `int` balance keeps a registry well formed. -/
theorem regOK_set_balance (db : DB) (h : RegOK db) (c j : Nat) (b : Int)
    (hb : INT_MIN ≤ b ∧ b ≤ INT_MAX) : RegOK (set_balance db c j b) := by
  have key : ∀ c', get_client (set_balance db c j b) c' =
      if c = c' ∧ c < db.length then
        { get_client db c with
          accounts := (get_client db c).accounts.set j
            { get_account (get_client db c) j with balance := b } }
      else get_client db c' := fun c' => by
    unfold set_balance; exact get_set_client _ _ _ _
  refine ⟨?_, ?_, ?_, ?_, ?_, ?_, ?_⟩
  · simp [set_balance, set_client, h.length_eq]
  · intro c'
    rw [key]; split
    · rename_i hc; rw [← hc.1]; exact h.ids c
    · exact h.ids c'
  · intro c'
    rw [key]; split
    · rename_i hc; rw [← hc.1]; exact h.secrets c
    · exact h.secrets c'
  · intro c' hc'
    rw [key]; split
    · rename_i hc; simp only [List.length_set]; rw [← hc.1] at hc'; exact h.accounts_length c hc'
    · exact h.accounts_length c' hc'
  · intro c'
    rw [key]; split
    · rename_i hc; exact h.count_le c
    · exact h.count_le c'
  · intro c' j'
    rw [key]; split
    · rename_i hc
      intro hj
      rw [get_account_set]
      split
      · rename_i hjj
        have := h.active c j' hj
        rw [← hjj.1] at this
        exact this
      · exact h.active c j' hj
    · exact h.active c' j'
  · intro c' j'
    rw [key]; split
    · rw [get_account_set]
      split
      · exact hb
      · exact h.in_range c j'
    · exact h.in_range c' j'

/-- Appending an account below the cap keeps a registry well formed. -/
theorem regOK_append (db : DB) (h : RegOK db) (c : Nat) (name : Bytes)
    (hc : (get_client db c).account_count < MAX_ACCOUNTS) :
    RegOK (account_open_append db c name) := by
  have key : ∀ c', get_client (account_open_append db c name) c' =
      if c = c' ∧ c < db.length then
        { get_client db c with
          accounts := (get_client db c).accounts.set (get_client db c).account_count
            ⟨name.take 49, 0, true⟩
          account_count := (get_client db c).account_count + 1 }
      else get_client db c' := fun c' => by
    unfold account_open_append; exact get_set_client _ _ _ _
  refine ⟨?_, ?_, ?_, ?_, ?_, ?_, ?_⟩
  · simp [account_open_append, set_client, h.length_eq]
  · intro c'
    rw [key]; split
    · rename_i hc; rw [← hc.1]; exact h.ids c
    · exact h.ids c'
  · intro c'
    rw [key]; split
    · rename_i hc; rw [← hc.1]; exact h.secrets c
    · exact h.secrets c'
  · intro c' hc'
    rw [key]; split
    · rename_i hc; simp only [List.length_set]; rw [← hc.1] at hc'; exact h.accounts_length c hc'
    · exact h.accounts_length c' hc'
  · intro c'
    rw [key]; split
    · exact hc
    · exact h.count_le c'
  · intro c' j'
    rw [key]; split
    · rename_i hcc
      intro hj
      rw [get_account_set]
      split
      · rfl
      · rename_i hne
        have hlen := h.accounts_length c (by rw [h.length_eq] at hcc; exact hcc.2)
        apply h.active c j'
        simp only at hj
        unfold MAX_ACCOUNTS at hc hlen
        omega
    · exact h.active c' j'
  · intro c' j'
    rw [key]; split
    · rw [get_account_set]
      split
      · show INT_MIN ≤ (0 : Int) ∧ (0 : Int) ≤ INT_MAX
        decide
      · exact h.in_range c j'
    · exact h.in_range c' j'

theorem regOK_process_account_open (s : Nat) (db : DB) (reads : Reads) (h : RegOK db) :
    RegOK (process_account_open s db reads).1 := by
  unfold process_account_open
  split
  · exact h
  · rename_i hfull
    split
    · exact h
    · apply regOK_append _ h
      simpa [account_open_full] using hfull

theorem regOK_process_deposit (s : Nat) (db : DB) (reads : Reads) (h : RegOK db) :
    RegOK (process_deposit s db reads).1 := by
  unfold process_deposit
  dsimp only
  repeat' split
  all_goals first | exact h | exact regOK_set_balance _ h _ _ _ (wrap32_range _)

theorem regOK_process_withdraw (s : Nat) (db : DB) (reads : Reads) (h : RegOK db) :
    RegOK (process_withdraw s db reads).1 := by
  unfold process_withdraw
  dsimp only
  repeat' split
  all_goals first | exact h | exact regOK_set_balance _ h _ _ _ (wrap32_range _)

theorem regOK_run_ops (ops : List Op) (db : DB) (h : RegOK db) : RegOK (run_ops db ops) := by
  induction ops generalizing db with
  | nil => exact h
  | cons op ops ih =>
    apply ih
    cases op with
    | account_open s reads => exact regOK_process_account_open s db reads h
    | deposit s reads => exact regOK_process_deposit s db reads h
    | withdraw s reads => exact regOK_process_withdraw s db reads h


/-! ## C1: the cap of five accounts -/

/-- Deposit leaves every `account_count` as it was. -/
theorem count_process_deposit (s : Nat) (db : DB) (reads : Reads) (c : Nat) :
    (get_client (process_deposit s db reads).1 c).account_count
      = (get_client db c).account_count := by
  unfold process_deposit
  dsimp only
  repeat' split
  all_goals first | rfl | exact count_set_balance _ _ _ _ _

/-- Withdraw leaves every `account_count` as it was. -/
theorem count_process_withdraw (s : Nat) (db : DB) (reads : Reads) (c : Nat) :
    (get_client (process_withdraw s db reads).1 c).account_count
      = (get_client db c).account_count := by
  unfold process_withdraw
  dsimp only
  repeat' split
  all_goals first | rfl | exact count_set_balance _ _ _ _ _

/-- Open-account keeps a count that is within the cap within the cap. -/
theorem count_process_account_open (s : Nat) (db : DB) (reads : Reads) (c : Nat)
    (h : (get_client db c).account_count ≤ MAX_ACCOUNTS) :
    (get_client (process_account_open s db reads).1 c).account_count ≤ MAX_ACCOUNTS := by
  unfold process_account_open
  split
  · exact h
  · rename_i hfull
    split
    · exact h
    · simp only [account_open_append, get_set_client]
      split
      · rename_i hc
        simp only [account_open_full, decide_eq_true_eq, not_le, ge_iff_le] at hfull
        simp only
        omega
      · exact h

theorem count_apply_op (db : DB) (op : Op) (c : Nat)
    (h : (get_client db c).account_count ≤ MAX_ACCOUNTS) :
    (get_client (apply_op db op) c).account_count ≤ MAX_ACCOUNTS := by
  cases op with
  | account_open s reads => exact count_process_account_open s db reads c h
  | deposit s reads => simp only [apply_op, count_process_deposit]; exact h
  | withdraw s reads => simp only [apply_op, count_process_withdraw]; exact h

theorem count_run_ops (ops : List Op) (db : DB)
    (h : ∀ c, (get_client db c).account_count ≤ MAX_ACCOUNTS) :
    ∀ c, (get_client (run_ops db ops) c).account_count ≤ MAX_ACCOUNTS := by
  induction ops generalizing db with
  | nil => exact h
  | cons op ops ih =>
    exact ih (apply_op db op) (fun c => count_apply_op db op c (h c))

/-- C1. An identity that holds MAX_ACCOUNTS = 5 accounts has its open-account
attempt rejected with the limit message, the registry and the pending reads
untouched; and after each operation of any sequence of open, deposit and
withdraw operations run from `init_database`, every identity holds at most
five accounts. -/
theorem open_account_capacity (db : DB) (client : Nat) (reads : Reads)
    (h : (get_client db client).account_count = MAX_ACCOUNTS) :
    process_account_open client db reads = (db, reads, [Msg.open_limit MAX_ACCOUNTS]) ∧
    ∀ (ops : List Op) (k c : Nat),
      (get_client (run_ops init_database (ops.take k)) c).account_count ≤ MAX_ACCOUNTS := by
  constructor
  · unfold process_account_open account_open_full
    simp [h]
  · intro ops k c
    exact count_run_ops (ops.take k) init_database
      (fun c => by rw [count_init_database]; exact Nat.zero_le _) c

/-- C1 at pi200 after five accounts have been opened: the sixth attempt. -/
theorem open_account_capacity_witness :
    (get_client (run_ops init_database five_opens) 0).account_count = MAX_ACCOUNTS ∧
    process_account_open 0 (run_ops init_database five_opens) [[70]]
      = (run_ops init_database five_opens, [[70]], [Msg.open_limit MAX_ACCOUNTS]) :=
  ⟨by decide, (open_account_capacity (run_ops init_database five_opens) 0 [[70]] (by decide)).1⟩

/-! ## Reads, selections and amounts -/

theorem read_buffer_cons (d : Bytes) (rest : Reads) (h : d ≠ []) :
    read_buffer (d :: rest) = (some (buffer_of d), rest) := by
  simp [read_buffer, h]

theorem atoi_range (s : Bytes) : INT_MIN ≤ atoi s ∧ atoi s ≤ INT_MAX := wrap32_range _

theorem nonempty_of_atoi_ne_zero (d : Bytes) (h : atoi (buffer_of d) ≠ 0) : d ≠ [] := by
  intro hd
  subst hd
  exact h (by decide)

/-- A selection between 1 and `n` passes the range test with index `atoi - 1`. -/
theorem selection_index (s : Bytes) (n : Nat) (h1 : 1 ≤ atoi s) (h2 : atoi s ≤ (n : Int)) :
    wrap32 (atoi s - 1) = atoi s - 1 ∧
    ¬ (wrap32 (atoi s - 1) < 0 ∨ wrap32 (atoi s - 1) ≥ (n : Int)) := by
  have hr := atoi_range s
  have hw : wrap32 (atoi s - 1) = atoi s - 1 := by
    apply wrap32_id
    · unfold INT_MIN; omega
    · have := hr.2; unfold INT_MAX at *; omega
  rw [hw]
  exact ⟨rfl, by omega⟩

theorem client_lt_of_count (db : DB) (h : RegOK db) (c : Nat)
    (hc : (get_client db c).account_count ≠ 0) : c < MAX_CLIENTS := by
  by_contra hge
  apply hc
  rw [get_client_of_ge db c (by rw [h.length_eq]; omega)]
  rfl

theorem secret_of_regOK (db : DB) (h : RegOK db) (c : Nat) (hc : c < MAX_CLIENTS) :
    (get_client db c).ip_last_digit = 200 + (c : Int) := by
  rw [h.secrets c, get_client_init c hc]

theorem balance_set_balance (db : DB) (h : RegOK db) (c j : Nat) (hc : c < MAX_CLIENTS)
    (hj : j < MAX_ACCOUNTS) (b : Int) :
    (get_account (get_client (set_balance db c j b) c) j).balance = b := by
  unfold set_balance
  rw [get_set_client, if_pos ⟨rfl, by rw [h.length_eq]; exact hc⟩, get_account_set,
    if_pos ⟨rfl, by rw [h.accounts_length c hc]; exact hj⟩]

/-! ## C2: balances and 32-bit arithmetic -/

/-- C2 at its failing input. Identity pi200 opens an account, deposits
2147483647 and then 1: `balance += amount` leaves the 32-bit balance at
-2147483648, below zero. -/
theorem deposit_overflow_negative_balance :
    (get_account (get_client (run_ops init_database overflow_ops) 0) 0).balance = -2147483648 ∧
    (get_account (get_client (run_ops init_database overflow_ops) 0) 0).balance < 0 := by
  decide

/-! ## C3: the withdrawal secret -/

/-- C3 as stated fails. Identity pi200 (secret 200) holds 100; it withdraws 30
with the secret line "200abc": the line is not the numeral "200", yet the
balance goes from 100 to 70. -/
theorem withdraw_accepts_inexact_secret :
    cut_newline (buffer_of [50, 48, 48, 97, 98, 99, 10])
      ≠ fmt_d (get_client (run_ops init_database open_and_deposit) 0).ip_last_digit ∧
    (get_account (get_client (run_ops init_database open_and_deposit) 0) 0).balance = 100 ∧
    (get_account (get_client (process_withdraw 0 (run_ops init_database open_and_deposit)
      [[49], [50, 48, 48, 97, 98, 99, 10], [51, 48]]).1 0) 0).balance = 70 := by
  decide

/-- C3, amended. On a withdraw with a valid own-account selection and a secret
line that was read: the registry changes only if `atoi` of the supplied secret
equals `ip_last_digit`; and when it differs, `process_withdraw` returns after
the mismatch message with the registry unchanged, no amount prompt sent and no
further read consumed, `handle_client` goes on to the continue question, and
after a reply that is no stop reply the loop is entered again. -/
theorem withdraw_secret_gate (client fuel : Nat) (db : DB) (menu sel secret : Bytes)
    (rest : Reads) (sent : List Msg)
    (h_menu : get_menu_choice (buffer_of menu) = 3)
    (h_sel : 1 ≤ atoi (buffer_of sel) ∧
      atoi (buffer_of sel) ≤ ((get_client db client).account_count : Int))
    (h_secret : secret ≠ []) :
    ((process_withdraw client db (sel :: secret :: rest)).1 ≠ db →
      atoi (buffer_of secret) = (get_client db client).ip_last_digit) ∧
    (atoi (buffer_of secret) ≠ (get_client db client).ip_last_digit →
      process_withdraw client db (sel :: secret :: rest)
        = (db, rest, [show_accounts client db, Msg.withdraw_select_prompt,
            Msg.password_prompt, Msg.password_mismatch]) ∧
      handle_loop client (fuel + 1) db (menu :: sel :: secret :: rest) sent
        = continue_question (handle_loop client fuel) db rest
            (sent ++ [Msg.menu_prompt, show_accounts client db, Msg.withdraw_select_prompt,
              Msg.password_prompt, Msg.password_mismatch]) ∧
      ∀ (reply : Bytes) (more : Reads), reply ≠ [] → is_stop_reply (buffer_of reply) = false →
        handle_loop client (fuel + 1) db (menu :: sel :: secret :: reply :: more) sent
          = handle_loop client fuel db more
              (sent ++ [Msg.menu_prompt, show_accounts client db, Msg.withdraw_select_prompt,
                Msg.password_prompt, Msg.password_mismatch, Msg.ask_more])) := by
  have hsel_ne : sel ≠ [] := nonempty_of_atoi_ne_zero sel (by omega)
  have hmenu_ne : menu ≠ [] := by
    intro h; subst h; revert h_menu; decide
  have hcount : (get_client db client).account_count ≠ 0 := by omega
  have hidx := selection_index (buffer_of sel) _ h_sel.1 h_sel.2
  have hmis : ∀ rest : Reads,
      atoi (buffer_of secret) ≠ (get_client db client).ip_last_digit →
      process_withdraw client db (sel :: secret :: rest)
        = (db, rest, [show_accounts client db, Msg.withdraw_select_prompt,
            Msg.password_prompt, Msg.password_mismatch]) := by
    intro rest hne
    unfold process_withdraw
    simp only [hcount, if_false, read_buffer_cons _ _ hsel_ne, read_buffer_cons _ _ h_secret,
      hidx.2, hne, ne_eq, not_false_eq_true, if_true, List.cons_append, List.nil_append]
  refine ⟨?_, ?_⟩
  · intro hch
    by_contra hne
    rw [hmis rest hne] at hch
    exact hch rfl
  · intro hne
    refine ⟨hmis rest hne, ?_, ?_⟩
    · rw [handle_loop, read_buffer_cons _ _ hmenu_ne]
      simp only [h_menu, hmis rest hne]
      simp
    · intro reply more hreply hstop
      rw [handle_loop, read_buffer_cons _ _ hmenu_ne]
      simp only [h_menu, hmis (reply :: more) hne]
      simp [continue_question, read_buffer_cons _ _ hreply, hstop]

/-- C3 (amended) at pi200 holding 100, selection "1", secret line "123". -/
theorem withdraw_secret_gate_witness :
    atoi (buffer_of [49, 50, 51]) ≠ (get_client (run_ops init_database open_and_deposit) 0).ip_last_digit ∧
    process_withdraw 0 (run_ops init_database open_and_deposit) [[49], [49, 50, 51], [51, 48]]
      = (run_ops init_database open_and_deposit, [[51, 48]],
          [show_accounts 0 (run_ops init_database open_and_deposit), Msg.withdraw_select_prompt,
            Msg.password_prompt, Msg.password_mismatch]) :=
  ⟨by decide,
    ((withdraw_secret_gate 0 0 (run_ops init_database open_and_deposit)
      [236, 182, 156, 234, 184, 136] [49] [49, 50, 51] [[51, 48]] []
      (by decide) (by decide) (by decide)).2 (by decide)).1⟩

/-! ## C4: insufficient funds -/

/-- C4 as stated fails. After the overflow of `overflow_ops` the balance of
pi200 is -2147483648; a withdraw of -5, an amount above that balance, is
answered with the invalid-amount message, which reports neither the balance
nor the amount. -/
theorem withdraw_nonpositive_amount_above_balance :
    (get_account (get_client (run_ops init_database overflow_ops) 0) 0).balance
      < atoi (buffer_of [45, 53]) ∧
    process_withdraw 0 (run_ops init_database overflow_ops) [[49], [50, 48, 48], [45, 53]]
      = (run_ops init_database overflow_ops, [],
          [show_accounts 0 (run_ops init_database overflow_ops), Msg.withdraw_select_prompt,
            Msg.password_prompt, Msg.withdraw_amount_prompt, Msg.bad_amount]) := by
  decide

/-- C4, amended. In a registry reached by operations from `init_database`, on
an own account with any balance `b`, with a valid selection and the correct
secret: a withdraw of an amount `a > b` with `a > 0` is rejected with the
message reporting `b` and `a` and the registry unchanged; and for every
amount `a'` with `0 < a' <= b`, a withdraw of `a'` that follows on the same
account succeeds, stores `b - a'` and reports `b - a'`. -/
theorem withdraw_insufficient_then_ok (ops : List Op) (db : DB) (client i : Nat) (b a : Int)
    (sel secret amt : Bytes) (rest : Reads)
    (hdb : db = run_ops init_database ops)
    (hi : 1 ≤ i ∧ i ≤ (get_client db client).account_count)
    (h_sel : atoi (buffer_of sel) = i)
    (h_secret : atoi (buffer_of secret) = (get_client db client).ip_last_digit)
    (hb : (get_account (get_client db client) (i - 1)).balance = b)
    (h_amt : atoi (buffer_of amt) = a) (ha : b < a) (ha_pos : 0 < a) :
    process_withdraw client db (sel :: secret :: amt :: rest)
      = (db, rest, [show_accounts client db, Msg.withdraw_select_prompt, Msg.password_prompt,
          Msg.withdraw_amount_prompt, Msg.insufficient b a]) ∧
    ∀ (a' : Int) (amt' : Bytes) (rest' : Reads),
      atoi (buffer_of amt') = a' → 0 < a' ∧ a' ≤ b →
      process_withdraw client (process_withdraw client db (sel :: secret :: amt :: rest)).1
          (sel :: secret :: amt' :: rest')
        = (set_balance db client (i - 1) (b - a'), rest',
            [show_accounts client db, Msg.withdraw_select_prompt, Msg.password_prompt,
              Msg.withdraw_amount_prompt,
              Msg.withdraw_done (get_account (get_client db client) (i - 1)).bank_name a'
                (b - a')]) ∧
      (get_account (get_client
        (process_withdraw client (process_withdraw client db (sel :: secret :: amt :: rest)).1
          (sel :: secret :: amt' :: rest')).1 client) (i - 1)).balance = b - a' := by
  have hok : RegOK db := hdb ▸ regOK_run_ops ops _ regOK_init
  have hcount : (get_client db client).account_count ≠ 0 := by omega
  have hclient := client_lt_of_count db hok client hcount
  have hpw := secret_of_regOK db hok client hclient
  have hsel_ne : sel ≠ [] := nonempty_of_atoi_ne_zero sel (by omega)
  have hsec_ne : secret ≠ [] := nonempty_of_atoi_ne_zero secret (by omega)
  have hamt_ne : amt ≠ [] := nonempty_of_atoi_ne_zero amt (by omega)
  have hidx := selection_index (buffer_of sel) (get_client db client).account_count
    (by omega) (by omega)
  have hj : (atoi (buffer_of sel) - 1).toNat = i - 1 := by omega
  have hidx2 : ¬ (atoi (buffer_of sel) - 1 < 0 ∨
      atoi (buffer_of sel) - 1 ≥ ((get_client db client).account_count : Int)) := by omega
  have hrange := hok.in_range client (i - 1)
  have h1 : process_withdraw client db (sel :: secret :: amt :: rest)
      = (db, rest, [show_accounts client db, Msg.withdraw_select_prompt, Msg.password_prompt,
          Msg.withdraw_amount_prompt, Msg.insufficient b a]) := by
    unfold process_withdraw
    simp only [hcount, if_false, read_buffer_cons _ _ hsel_ne, read_buffer_cons _ _ hsec_ne,
      read_buffer_cons _ _ hamt_ne, hidx.1, hidx2, h_secret, ne_eq, not_true_eq_false, hj, hb,
      h_amt, List.cons_append, List.nil_append,
      if_neg (show ¬ a ≤ 0 by omega), if_pos ha]
  refine ⟨h1, ?_⟩
  intro a' amt' rest' h_amt' ha'
  have hamt_ne' : amt' ≠ [] := nonempty_of_atoi_ne_zero amt' (by omega)
  have hw : wrap32 (b - a') = b - a' := by
    apply wrap32_id <;> unfold INT_MIN INT_MAX at * <;> omega
  have h2 : process_withdraw client db (sel :: secret :: amt' :: rest')
      = (set_balance db client (i - 1) (b - a'), rest',
          [show_accounts client db, Msg.withdraw_select_prompt, Msg.password_prompt,
            Msg.withdraw_amount_prompt,
            Msg.withdraw_done (get_account (get_client db client) (i - 1)).bank_name a'
              (b - a')]) := by
    unfold process_withdraw
    simp only [hcount, if_false, read_buffer_cons _ _ hsel_ne, read_buffer_cons _ _ hsec_ne,
      read_buffer_cons _ _ hamt_ne', hidx.1, hidx2, h_secret, ne_eq, not_true_eq_false, hj, hb,
      h_amt', hw, List.cons_append, List.nil_append,
      if_neg (show ¬ a' ≤ 0 by omega), if_neg (show ¬ b < a' by omega)]
  rw [h1]
  refine ⟨h2, ?_⟩
  rw [h2]
  exact balance_set_balance db hok client (i - 1) hclient
    (by have := hok.count_le client; unfold MAX_ACCOUNTS at *; omega) _

/-- C4 (amended) at pi200 holding 100: 150 is refused, then 30 is paid out;
and at pi200 holding 0: 5 is refused. -/
theorem withdraw_insufficient_then_ok_witness :
    process_withdraw 0 (run_ops init_database scenario_a_open) [[49], [50, 48, 48], [53]]
      = (run_ops init_database scenario_a_open, [],
          [show_accounts 0 (run_ops init_database scenario_a_open), Msg.withdraw_select_prompt,
            Msg.password_prompt, Msg.withdraw_amount_prompt, Msg.insufficient 0 5]) ∧
    process_withdraw 0 (run_ops init_database open_and_deposit) [[49], [50, 48, 48], [49, 53, 48]]
      = (run_ops init_database open_and_deposit, [],
          [show_accounts 0 (run_ops init_database open_and_deposit), Msg.withdraw_select_prompt,
            Msg.password_prompt, Msg.withdraw_amount_prompt, Msg.insufficient 100 150]) ∧
    (get_account (get_client
      (process_withdraw 0
        (process_withdraw 0 (run_ops init_database open_and_deposit)
          [[49], [50, 48, 48], [49, 53, 48]]).1
        [[49], [50, 48, 48], [51, 48]]).1 0) (1 - 1)).balance = 100 - 30 :=
  have h := withdraw_insufficient_then_ok open_and_deposit (run_ops init_database open_and_deposit)
    0 1 100 150 [49] [50, 48, 48] [49, 53, 48] [] rfl (by decide) (by decide)
    (by decide) (by decide) (by decide) (by decide) (by decide)
  ⟨(withdraw_insufficient_then_ok scenario_a_open (run_ops init_database scenario_a_open)
      0 1 0 5 [49] [50, 48, 48] [53] [] rfl (by decide) (by decide)
      (by decide) (by decide) (by decide) (by decide) (by decide)).1,
    h.1, (h.2 30 [51, 48] [] (by decide) (by decide)).2⟩

/-! ## C5: deposit -/

theorem find_target_init (t : Nat) (ht : t < MAX_CLIENTS) :
    find_target init_database (get_client init_database t).client_id = some t := by
  unfold MAX_CLIENTS at ht
  interval_cases t <;> decide

theorem find_target_regOK (db : DB) (h : RegOK db) (buf : Bytes) :
    find_target db buf = find_target init_database buf := by
  unfold find_target
  congr 1
  funext i
  rw [h.ids i]

theorem mem_account_lines (ci : ClientInfo) (j : Nat) (hj : j < ci.account_count)
    (ha : (get_account ci j).is_active = true) :
    (j + 1, (get_account ci j).bank_name, (get_account ci j).balance) ∈ account_lines ci := by
  unfold account_lines
  simp only [List.mem_map, List.mem_filter, List.mem_range]
  exact ⟨j, ⟨hj, ha⟩, rfl⟩

theorem get_account_set_balance (db : DB) (c j c' j' : Nat) (b : Int) :
    get_account (get_client (set_balance db c j b) c') j' =
      if (c = c' ∧ c < db.length) ∧ (j = j' ∧ j < (get_client db c).accounts.length) then
        { get_account (get_client db c) j with balance := b }
      else get_account (get_client db c') j' := by
  unfold set_balance
  rw [get_set_client]
  by_cases h1 : c = c' ∧ c < db.length
  · rw [if_pos h1, get_account_set]
    obtain ⟨rfl, _⟩ := h1
    by_cases h2 : j = j' ∧ j < (get_client db c).accounts.length
    · rw [if_pos h2, if_pos ⟨⟨rfl, by assumption⟩, h2⟩]
    · rw [if_neg h2, if_neg (fun h => h2 h.2)]
  · rw [if_neg h1, if_neg (fun h => h1 h.1)]

/-- C5. In a registry reached by operations from `init_database`, for a
session of any identity `s`, a target `t` named by its id, a selection `i`
with `1 <= i <= account_count(t)` and an amount `a > 0` with `old + a` within
`int`: `process_deposit` stores `old + a` in account `i` of `t`, reports it,
leaves every other balance, every label, every active flag and every
`account_count` as they were, and the listing of `t` that follows shows
account `i` with the new balance. -/
theorem deposit_credits_account (ops : List Op) (db : DB) (s t i : Nat) (old a : Int)
    (target sel amt : Bytes) (rest : Reads)
    (hdb : db = run_ops init_database ops)
    (h_target : cut_newline (buffer_of target) = (get_client db t).client_id)
    (hi : 1 ≤ i ∧ i ≤ (get_client db t).account_count)
    (h_sel : atoi (buffer_of sel) = i)
    (h_amt : atoi (buffer_of amt) = a) (ha : 0 < a)
    (h_old : (get_account (get_client db t) (i - 1)).balance = old)
    (h_range : old + a ≤ INT_MAX) :
    process_deposit s db (target :: sel :: amt :: rest)
      = (set_balance db t (i - 1) (old + a), rest,
          [Msg.deposit_target_prompt,
            Msg.deposit_select (get_client db t).client_id (deposit_lines (get_client db t)),
            Msg.deposit_amount_prompt,
            Msg.deposit_done (get_client db t).client_id
              (get_account (get_client db t) (i - 1)).bank_name a (old + a)]) ∧
    (get_account (get_client (set_balance db t (i - 1) (old + a)) t) (i - 1)).balance = old + a ∧
    (∀ c j, ¬ (c = t ∧ j = i - 1) →
      (get_account (get_client (set_balance db t (i - 1) (old + a)) c) j).balance
        = (get_account (get_client db c) j).balance) ∧
    (∀ c j,
      (get_account (get_client (set_balance db t (i - 1) (old + a)) c) j).bank_name
        = (get_account (get_client db c) j).bank_name ∧
      (get_account (get_client (set_balance db t (i - 1) (old + a)) c) j).is_active
        = (get_account (get_client db c) j).is_active) ∧
    (∀ c, (get_client (set_balance db t (i - 1) (old + a)) c).account_count
        = (get_client db c).account_count) ∧
    (∃ lines, show_accounts t (set_balance db t (i - 1) (old + a)) = Msg.accounts_list lines ∧
      (i, (get_account (get_client db t) (i - 1)).bank_name, old + a) ∈ lines) := by
  have hok : RegOK db := hdb ▸ regOK_run_ops ops _ regOK_init
  have hcount : (get_client db t).account_count ≠ 0 := by omega
  have ht := client_lt_of_count db hok t hcount
  have hfind : find_target db (cut_newline (buffer_of target)) = some t := by
    rw [h_target, find_target_regOK db hok, hok.ids t, find_target_init t ht]
  have htarget_ne : target ≠ [] := by
    intro h
    subst h
    have h1 : cut_newline (buffer_of []) = [] := by decide
    rw [h1, hok.ids t, get_client_init t ht] at h_target
    simp at h_target
  have hsel_ne : sel ≠ [] := nonempty_of_atoi_ne_zero sel (by omega)
  have hamt_ne : amt ≠ [] := nonempty_of_atoi_ne_zero amt (by omega)
  have hidx := selection_index (buffer_of sel) (get_client db t).account_count
    (by omega) (by omega)
  have hj : (atoi (buffer_of sel) - 1).toNat = i - 1 := by omega
  have hidx2 : ¬ (atoi (buffer_of sel) - 1 < 0 ∨
      atoi (buffer_of sel) - 1 ≥ ((get_client db t).account_count : Int)) := by omega
  have hrange := hok.in_range t (i - 1)
  have hw : wrap32 (old + a) = old + a := by
    apply wrap32_id <;> unfold INT_MIN INT_MAX at * <;> omega
  have hjlt : i - 1 < MAX_ACCOUNTS := by
    have := hok.count_le t; unfold MAX_ACCOUNTS at *; omega
  have hnew := balance_set_balance db hok t (i - 1) ht hjlt (old + a)
  refine ⟨?_, hnew, ?_, ?_, ?_, ?_⟩
  · unfold process_deposit
    simp only [read_buffer_cons _ _ htarget_ne, hfind, hcount, if_false,
      read_buffer_cons _ _ hsel_ne, read_buffer_cons _ _ hamt_ne, hidx.1, hidx2, hj, h_old,
      h_amt, hw, List.cons_append, List.nil_append, if_neg (show ¬ a ≤ 0 by omega)]
  · intro c j hne
    rw [get_account_set_balance]
    split
    · rename_i h; exact absurd ⟨h.1.1.symm, h.2.1.symm⟩ hne
    · rfl
  · intro c j
    rw [get_account_set_balance]
    split
    · rename_i h
      obtain ⟨⟨rfl, _⟩, rfl, _⟩ := h
      exact ⟨rfl, rfl⟩
    · exact ⟨rfl, rfl⟩
  · intro c
    exact count_set_balance _ _ _ _ _
  · refine ⟨account_lines (get_client (set_balance db t (i - 1) (old + a)) t), ?_, ?_⟩
    · unfold show_accounts
      simp only [count_set_balance, hcount, if_false]
    · have hact : (get_account (get_client (set_balance db t (i - 1) (old + a)) t)
          (i - 1)).is_active = true := by
        rw [get_account_set_balance]
        split
        · exact hok.active t (i - 1) (by omega)
        · exact hok.active t (i - 1) (by omega)
      have hname : (get_account (get_client (set_balance db t (i - 1) (old + a)) t)
          (i - 1)).bank_name = (get_account (get_client db t) (i - 1)).bank_name := by
        rw [get_account_set_balance]
        split <;> rfl
      have hm := mem_account_lines (get_client (set_balance db t (i - 1) (old + a)) t) (i - 1)
        (by rw [count_set_balance]; omega) hact
      rw [hnew, hname, show i - 1 + 1 = i by omega] at hm
      exact hm


/-- C5 in scenario A: pi200 opens "Alpha" and deposits 100 into it; the
listing shows `1. Alpha` with balance 100, also when the whole exchange runs
through `handle_client` and a withdraw is started to get the listing. -/
theorem deposit_credits_account_witness :
    (process_deposit 0 (run_ops init_database scenario_a_open)
        [[112, 105, 50, 48, 48, 10], [49, 10], [49, 48, 48, 10]]).1
      = set_balance (run_ops init_database scenario_a_open) 0 (1 - 1) (0 + 100) ∧
    show_accounts 0 (set_balance (run_ops init_database scenario_a_open) 0 (1 - 1) (0 + 100))
      = Msg.accounts_list [(1, [65, 108, 112, 104, 97], 100)] ∧
    Msg.accounts_list [(1, [65, 108, 112, 104, 97], 100)]
      ∈ (handle_client 1 0 init_database scenario_a_session).sent :=
  ⟨congrArg Prod.fst (deposit_credits_account scenario_a_open
      (run_ops init_database scenario_a_open) 0 0 1 0 100
      [112, 105, 50, 48, 48, 10] [49, 10] [49, 48, 48, 10] [] rfl (by decide) (by decide)
      (by decide) (by decide) (by decide) (by decide) (by decide)).1,
    by decide, by decide⟩

/-! ## C6: the waiting queue is a bounded FIFO -/

theorem queueOK_init : QueueOK init_waiting_queue := by
  refine ⟨by decide, by decide, by decide, by decide⟩

theorem contents_length (q : WaitingQueue) : (contents q).length = q.count := by
  simp [contents]

theorem queueOK_enqueue (q : WaitingQueue) (h : QueueOK q) (fd : Int) :
    QueueOK (enqueue q fd) := by
  unfold enqueue
  split
  · rename_i hlt
    obtain ⟨h1, h2, h3, h4⟩ := h
    refine ⟨?_, ?_, ?_, ?_⟩
    · simpa using h1
    · exact h2
    · exact hlt
    · simp only [h4]
      unfold MAX_QUEUE at *
      omega
  · exact h

theorem queueOK_dequeue (q : WaitingQueue) (h : QueueOK q) : QueueOK (dequeue q).2 := by
  unfold dequeue
  split
  · rename_i hpos
    obtain ⟨h1, h2, h3, h4⟩ := h
    refine ⟨h1, ?_, ?_, ?_⟩
    · exact Nat.mod_lt _ (by decide)
    · simp only; omega
    · simp only [h4]
      unfold MAX_QUEUE at *
      omega
  · exact h

theorem contents_enqueue (q : WaitingQueue) (h : QueueOK q) (fd : Int)
    (hlt : q.count < MAX_QUEUE) : contents (enqueue q fd) = contents q ++ [fd] := by
  obtain ⟨h1, h2, h3, h4⟩ := h
  unfold enqueue contents
  rw [if_pos hlt]
  simp only [List.range_succ, List.map_append, List.map_cons, List.map_nil]
  congr 1
  · apply List.map_congr_left
    intro k hk
    rw [List.mem_range] at hk
    simp only [List.getD_eq_getElem?_getD]
    rw [List.getElem?_set_ne]
    rw [h4]
    unfold MAX_QUEUE at *
    omega
  · simp only [List.getD_eq_getElem?_getD, h4]
    rw [List.getElem?_set_self (by rw [h1]; exact Nat.mod_lt _ (by decide))]
    rfl

theorem contents_dequeue (q : WaitingQueue) (h : QueueOK q) (hpos : 0 < q.count) :
    contents q = (dequeue q).1 :: contents (dequeue q).2 := by
  obtain ⟨h1, h2, h3, h4⟩ := h
  unfold dequeue contents
  rw [if_pos hpos]
  obtain ⟨n, hn⟩ : ∃ n, q.count = n + 1 := ⟨q.count - 1, by omega⟩
  simp only [hn, List.range_succ_eq_map, List.map_cons, List.map_map, Nat.add_sub_cancel]
  congr 1
  · simp [Nat.mod_eq_of_lt h2]
  · apply List.map_congr_left
    intro k _
    simp only [Function.comp]
    congr 1
    unfold MAX_QUEUE at *
    omega

theorem dequeue_empty (q : WaitingQueue) (h : q.count = 0) : dequeue q = (-1, q) := by
  unfold dequeue
  rw [if_neg (by omega)]

theorem enqueue_full (q : WaitingQueue) (fd : Int) (h : q.count = MAX_QUEUE) :
    enqueue q fd = q := by
  unfold enqueue
  rw [if_neg (by omega)]

/-- One call keeps the ring buffer in step with the specification's queue. -/
theorem queue_call_sim (r : QueueRun) (s : List Int × List Int) (op : QueueOp)
    (hq : QueueOK r.q) (hc : contents r.q = s.1) (hr : r.returned = s.2)
    (hs : r.returned.filter (fun x => x != -1) ++ contents r.q = r.stored)
    (hnn : ∀ x ∈ contents r.q, 0 ≤ x) (hop : ∀ fd, op = QueueOp.enq fd → 0 ≤ fd) :
    QueueOK (queue_call r op).q ∧ contents (queue_call r op).q = (fifo_call s op).1 ∧
    (queue_call r op).returned = (fifo_call s op).2 ∧
    (queue_call r op).returned.filter (fun x => x != -1) ++ contents (queue_call r op).q
      = (queue_call r op).stored ∧
    ∀ x ∈ contents (queue_call r op).q, 0 ≤ x := by
  have hlen := contents_length r.q
  cases op with
  | enq fd =>
    simp only [queue_call, fifo_call]
    refine ⟨queueOK_enqueue _ hq _, ?_, hr, ?_, ?_⟩
    · by_cases hlt : r.q.count < MAX_QUEUE
      · rw [contents_enqueue _ hq _ hlt, ← hc, hlen, if_pos (by unfold MAX_QUEUE at hlt; exact hlt)]
      · rw [enqueue_full _ _ (by have := hq.count_le; omega), ← hc, hlen,
          if_neg (by unfold MAX_QUEUE at hlt; exact hlt)]
    · by_cases hlt : r.q.count < MAX_QUEUE
      · rw [contents_enqueue _ hq _ hlt, if_pos hlt, ← hs, List.append_assoc]
      · rw [enqueue_full _ _ (by have := hq.count_le; omega), if_neg hlt, hs]
    · by_cases hlt : r.q.count < MAX_QUEUE
      · rw [contents_enqueue _ hq _ hlt]
        intro x hx
        rcases List.mem_append.1 hx with hx | hx
        · exact hnn x hx
        · rw [List.mem_singleton] at hx
          rw [hx]; exact hop fd rfl
      · rw [enqueue_full _ _ (by have := hq.count_le; omega)]
        exact hnn
  | deq =>
    simp only [queue_call, fifo_call]
    by_cases hpos : 0 < r.q.count
    · have hd := contents_dequeue _ hq hpos
      have hnn' : 0 ≤ (dequeue r.q).1 := hnn _ (by rw [hd]; exact List.mem_cons_self _ _)
      rw [hd] at hc hs hnn
      refine ⟨queueOK_dequeue _ hq, ?_, ?_, ?_, ?_⟩
      · rw [← hc]
      · rw [← hc, hr]
      · rw [← hs, List.filter_append]
        have : ([(dequeue r.q).1].filter fun x => x != -1) = [(dequeue r.q).1] := by
          rw [List.filter_cons_of_pos]
          · rfl
          · simp only [bne_iff_ne, ne_eq]; omega
        rw [this]
        simp
      · intro x hx
        exact hnn x (List.mem_cons_of_mem _ hx)
    · have h0 : r.q.count = 0 := by omega
      have hnil : contents r.q = [] := List.eq_nil_of_length_eq_zero (by rw [hlen, h0])
      rw [dequeue_empty _ h0]
      rw [hnil] at hc
      refine ⟨hq, ?_, ?_, ?_, hnn⟩
      · rw [← hc, hnil]
      · rw [← hc, hr]
      · rw [← hs, List.filter_append]
        simp

/-- A run of calls keeps the ring buffer in step with the specification's
queue. -/
theorem queue_run_sim (ops : List QueueOp) (r : QueueRun) (s : List Int × List Int)
    (hq : QueueOK r.q) (hc : contents r.q = s.1) (hr : r.returned = s.2)
    (hs : r.returned.filter (fun x => x != -1) ++ contents r.q = r.stored)
    (hnn : ∀ x ∈ contents r.q, 0 ≤ x) (hop : ∀ fd, QueueOp.enq fd ∈ ops → 0 ≤ fd) :
    QueueOK (ops.foldl queue_call r).q ∧
    contents (ops.foldl queue_call r).q = (ops.foldl fifo_call s).1 ∧
    (ops.foldl queue_call r).returned = (ops.foldl fifo_call s).2 ∧
    (ops.foldl queue_call r).returned.filter (fun x => x != -1)
      ++ contents (ops.foldl queue_call r).q = (ops.foldl queue_call r).stored := by
  induction ops generalizing r s with
  | nil => exact ⟨hq, hc, hr, hs⟩
  | cons op ops ih =>
    obtain ⟨h1, h2, h3, h4, h5⟩ := queue_call_sim r s op hq hc hr hs hnn
      (fun fd h => hop fd (by rw [h]; exact List.mem_cons_self _ _))
    exact ih _ _ h1 h2 h3 h4 h5 (fun fd h => hop fd (List.mem_cons_of_mem _ h))

/-- C6. From `init_waiting_queue`, for every sequence of `enqueue(fd)` and
`dequeue()` calls with `fd >= 0`, the ring buffer agrees with the bounded FIFO
list of the specification: its contents, read from `front`, are the list, and
every `dequeue` returns what the list returns (-1 when empty).  `count` is the
number waiting and at most 20; at 20 `enqueue` changes nothing, at 0 `dequeue`
returns -1 and changes nothing; and the values returned by successful
dequeues, followed by the contents, are the values stored by `enqueue` in
order, so they are a prefix of them. -/
theorem waiting_queue_fifo (ops : List QueueOp) (h : ∀ fd, QueueOp.enq fd ∈ ops → 0 ≤ fd) :
    contents (run_queue ops).q = (run_fifo ops).1 ∧
    (run_queue ops).returned = (run_fifo ops).2 ∧
    (run_queue ops).q.count = (contents (run_queue ops).q).length ∧
    (run_queue ops).q.count ≤ MAX_QUEUE ∧
    ((run_queue ops).q.count = MAX_QUEUE →
      ∀ fd, enqueue (run_queue ops).q fd = (run_queue ops).q) ∧
    ((run_queue ops).q.count = 0 → dequeue (run_queue ops).q = (-1, (run_queue ops).q)) ∧
    (run_queue ops).returned.filter (fun x => x != -1) ++ contents (run_queue ops).q
      = (run_queue ops).stored ∧
    (run_queue ops).returned.filter (fun x => x != -1) <+: (run_queue ops).stored := by
  obtain ⟨h1, h2, h3, h4⟩ := queue_run_sim ops ⟨init_waiting_queue, [], []⟩ ([], [])
    queueOK_init rfl rfl rfl (fun x hx => by simp [contents, init_waiting_queue] at hx) h
  refine ⟨h2, h3, (contents_length _).symm, h1.count_le,
    fun hf fd => enqueue_full _ fd hf, fun h0 => dequeue_empty _ h0, h4, ?_⟩
  exact ⟨_, h4⟩


/-- C6 on a short run: 7 and 8 arrive, one is served, 9 arrives, three more
dequeues. -/
theorem waiting_queue_fifo_witness :
    (run_queue sample_queue_ops).returned = [7, 8, 9, -1] ∧
    (run_fifo sample_queue_ops).2 = [7, 8, 9, -1] ∧
    (run_queue sample_queue_ops).returned.filter (fun x => x != -1)
      <+: (run_queue sample_queue_ops).stored :=
  ⟨by decide, by decide,
    (waiting_queue_fifo sample_queue_ops (fun fd h => by
      simp [sample_queue_ops] at h
      omega)).2.2.2.2.2.2.2⟩

/-! ## C7: authentication by source address -/

theorem match_literal_append (l1 l2 s : Bytes) :
    match_literal (l1 ++ l2) s = (match_literal l1 s).bind (match_literal l2) := by
  induction l1 generalizing s with
  | nil => rfl
  | cons c cs ih =>
    cases s with
    | nil => rfl
    | cons b bs =>
      simp only [List.cons_append, match_literal]
      split
      · exact ih bs
      · rfl

theorem match_literal_eq_iff (lit s : Bytes) : match_literal lit s = some [] ↔ s = lit := by
  induction lit generalizing s with
  | nil =>
    simp [match_literal]
  | cons c cs ih =>
    cases s with
    | nil => simp [match_literal]
    | cons b bs =>
      simp only [match_literal]
      split
      · rename_i h; rw [ih bs]; simp [h]
      · rename_i h; simp [Ne.symm h]

set_option maxRecDepth 4000 in
theorem match_component_10 (n : Nat) (hn : n ≤ 255) (rest : Bytes) :
    match_literal [49, 48, 46] (fmt_d (n : Int) ++ 46 :: rest)
      = if n = 10 then some rest else none := by
  interval_cases n <;> rfl

set_option maxRecDepth 4000 in
theorem match_component_16 (n : Nat) (hn : n ≤ 255) (rest : Bytes) :
    match_literal [49, 54, 46] (fmt_d (n : Int) ++ 46 :: rest)
      = if n = 16 then some rest else none := by
  interval_cases n <;> rfl

set_option maxRecDepth 4000 in
theorem match_component_127 (n : Nat) (hn : n ≤ 255) (rest : Bytes) :
    match_literal [49, 50, 55, 46] (fmt_d (n : Int) ++ 46 :: rest)
      = if n = 127 then some rest else none := by
  interval_cases n <;> rfl

set_option maxRecDepth 4000 in
theorem match_component_0 (n : Nat) (hn : n ≤ 255) (rest : Bytes) :
    match_literal [48, 46] (fmt_d (n : Int) ++ 46 :: rest)
      = if n = 0 then some rest else none := by
  interval_cases n <;> rfl

set_option maxRecDepth 4000 in
theorem match_last_1 (n : Nat) (hn : n ≤ 255) :
    match_literal [49] (fmt_d (n : Int)) = some [] ↔ n = 1 := by
  interval_cases n <;> decide

set_option maxRecDepth 4000 in
theorem scan_d_fmt_d (n : Nat) (hn : n ≤ 255) : scan_d (fmt_d (n : Int)) = some (n : Int) := by
  interval_cases n <;> decide

theorem ip_text_eq (a b c d : Nat) :
    ip_text a b c d
      = fmt_d (a : Int) ++ 46 :: (fmt_d (b : Int) ++ 46 :: (fmt_d (c : Int) ++ 46 :: fmt_d (d : Int))) := by
  simp [ip_text]

/-- The prefix "10.10.16." matches exactly the addresses 10.10.16.d. -/
theorem match_prefix_ip_text (a b c d : Nat) (ha : a ≤ 255) (hb : b ≤ 255) (hc : c ≤ 255) :
    match_literal [49, 48, 46, 49, 48, 46, 49, 54, 46] (ip_text a b c d)
      = if a = 10 ∧ b = 10 ∧ c = 16 then some (fmt_d (d : Int)) else none := by
  rw [ip_text_eq,
    show ([49, 48, 46, 49, 48, 46, 49, 54, 46] : Bytes) = [49, 48, 46] ++ ([49, 48, 46] ++ [49, 54, 46])
      from rfl,
    match_literal_append, match_component_10 a ha]
  by_cases h1 : a = 10
  · rw [if_pos h1, Option.some_bind, match_literal_append, match_component_10 b hb]
    by_cases h2 : b = 10
    · rw [if_pos h2, Option.some_bind, match_component_16 c hc]
      by_cases h3 : c = 16
      · rw [if_pos h3, if_pos ⟨h1, h2, h3⟩]
      · rw [if_neg h3, if_neg (fun h => h3 h.2.2)]
    · rw [if_neg h2, if_neg (fun h => h2 h.2.1)]; rfl
  · rw [if_neg h1, if_neg (fun h => h1 h.1)]; rfl

/-- The text of an address is "127.0.0.1" only for 127.0.0.1. -/
theorem ip_text_eq_local (a b c d : Nat) (ha : a ≤ 255) (hb : b ≤ 255) (hc : c ≤ 255)
    (hd : d ≤ 255) :
    ip_text a b c d = [49, 50, 55, 46, 48, 46, 48, 46, 49] ↔ a = 127 ∧ b = 0 ∧ c = 0 ∧ d = 1 := by
  rw [← match_literal_eq_iff, ip_text_eq,
    show ([49, 50, 55, 46, 48, 46, 48, 46, 49] : Bytes)
      = [49, 50, 55, 46] ++ ([48, 46] ++ ([48, 46] ++ [49])) from rfl,
    match_literal_append, match_component_127 a ha]
  by_cases h1 : a = 127
  · rw [if_pos h1, Option.some_bind, match_literal_append, match_component_0 b hb]
    by_cases h2 : b = 0
    · rw [if_pos h2, Option.some_bind, match_literal_append, match_component_0 c hc]
      by_cases h3 : c = 0
      · rw [if_pos h3, Option.some_bind, match_last_1 d hd]
        simp [h1, h2, h3]
      · rw [if_neg h3]; simp [h3]
    · rw [if_neg h2]; simp [h2]
  · rw [if_neg h1]; simp [h1]

/-- What `find_client_by_ip` returns on the text of an IPv4 address. -/
theorem find_client_by_ip_text (a b c d : Nat) (ha : a ≤ 255) (hb : b ≤ 255) (hc : c ≤ 255)
    (hd : d ≤ 255) :
    find_client_by_ip (ip_text a b c d) =
      if a = 10 ∧ b = 10 ∧ c = 16 then (if 200 ≤ d ∧ d ≤ 224 then some (d - 200) else none)
      else if a = 127 ∧ b = 0 ∧ c = 0 ∧ d = 1 then some 0 else none := by
  unfold find_client_by_ip
  rw [match_prefix_ip_text a b c d ha hb hc]
  by_cases h : a = 10 ∧ b = 10 ∧ c = 16
  · rw [if_pos h, if_pos h, Option.some_bind, scan_d_fmt_d d hd]
    simp only
    by_cases hr : 200 ≤ d ∧ d ≤ 224
    · have ht : ((d : Int) - 200).toNat = d - 200 := by omega
      rw [if_pos hr, if_neg (by omega), ht]
    · rw [if_neg hr, if_pos (by omega)]
  · rw [if_neg h, if_neg h]
    simp only [Option.none_bind]
    by_cases hl : a = 127 ∧ b = 0 ∧ c = 0 ∧ d = 1
    · rw [if_pos hl, if_pos ((ip_text_eq_local a b c d ha hb hc hd).2 hl)]
    · rw [if_neg hl, if_neg (fun h => hl ((ip_text_eq_local a b c d ha hb hc hd).1 h))]

/-- C7. For the text a.b.c.d of an IPv4 address (components 0..255),
`find_client_by_ip` returns an identity exactly when a.b.c = 10.10.16 and
200 <= d <= 224, or the address is 127.0.0.1.  In the first case it is entry
`d - 200` of `client_db`, whose `client_id` is "pi" followed by d and whose
secret `ip_last_digit` is d, and two allowed suffixes that give the same
identity are equal; 127.0.0.1 gives entry 0, pi200 with secret 200.  For any
other address the acceptor's step leaves the slot table, the waiting queue and
the connection it holds as they were, and sends the rejection notice. -/
theorem find_client_by_ip_allow_list (a b c d : Nat) (ha : a ≤ 255) (hb : b ≤ 255)
    (hc : c ≤ 255) (hd : d ≤ 255) :
    ((find_client_by_ip (ip_text a b c d)).isSome ↔
      (a = 10 ∧ b = 10 ∧ c = 16 ∧ 200 ≤ d ∧ d ≤ 224) ∨ (a = 127 ∧ b = 0 ∧ c = 0 ∧ d = 1)) ∧
    (a = 10 ∧ b = 10 ∧ c = 16 ∧ 200 ≤ d ∧ d ≤ 224 →
      find_client_by_ip (ip_text a b c d) = some (d - 200) ∧
      (get_client init_database (d - 200)).client_id = [112, 105] ++ fmt_d (d : Int) ∧
      (get_client init_database (d - 200)).ip_last_digit = (d : Int) ∧
      ∀ d', 200 ≤ d' ∧ d' ≤ 224 →
        find_client_by_ip (ip_text 10 10 16 d') = find_client_by_ip (ip_text a b c d) → d' = d) ∧
    (a = 127 ∧ b = 0 ∧ c = 0 ∧ d = 1 →
      find_client_by_ip (ip_text a b c d) = some 0 ∧
      (get_client init_database 0).client_id = [112, 105, 50, 48, 48] ∧
      (get_client init_database 0).ip_last_digit = 200) ∧
    (find_client_by_ip (ip_text a b c d) = none →
      ∀ (s : Dispatcher) (client_fd : Int),
        (step s (Event.accept (ip_text a b c d) client_fd)).workers = s.workers ∧
        (step s (Event.accept (ip_text a b c d) client_fd)).waiting_queue = s.waiting_queue ∧
        (step s (Event.accept (ip_text a b c d) client_fd)).pending = s.pending ∧
        (s.pending = none →
          (step s (Event.accept (ip_text a b c d) client_fd)).notices
            = s.notices ++ [(client_fd, Msg.reject_ip)])) := by
  have hf := find_client_by_ip_text a b c d ha hb hc hd
  refine ⟨?_, ?_, ?_, ?_⟩
  · rw [hf]
    by_cases h : a = 10 ∧ b = 10 ∧ c = 16
    · rw [if_pos h]
      by_cases hr : 200 ≤ d ∧ d ≤ 224
      · rw [if_pos hr]
        simp [h, hr]
      · rw [if_neg hr]
        simp only [Option.isSome_none, Bool.false_eq_true, false_iff]
        omega
    · rw [if_neg h]
      by_cases hl : a = 127 ∧ b = 0 ∧ c = 0 ∧ d = 1
      · rw [if_pos hl]
        simp [hl]
      · rw [if_neg hl]
        simp only [Option.isSome_none, Bool.false_eq_true, false_iff]
        omega
  · intro h
    have hlt : d - 200 < MAX_CLIENTS := by unfold MAX_CLIENTS; omega
    have hcast : (200 : Int) + ((d - 200 : Nat) : Int) = (d : Int) := by omega
    refine ⟨?_, ?_, ?_, ?_⟩
    · rw [hf, if_pos ⟨h.1, h.2.1, h.2.2.1⟩, if_pos h.2.2.2]
    · rw [get_client_init _ hlt]
      simp only [hcast]
    · rw [get_client_init _ hlt]
      simp only [hcast]
    · intro d' hd' heq
      rw [hf, if_pos ⟨h.1, h.2.1, h.2.2.1⟩, if_pos h.2.2.2,
        find_client_by_ip_text 10 10 16 d' (by omega) (by omega) (by omega) (by omega),
        if_pos ⟨rfl, rfl, rfl⟩, if_pos hd'] at heq
      have := Option.some.inj heq
      omega
  · intro h
    refine ⟨?_, by decide, by decide⟩
    rw [hf, if_neg (by omega), if_pos h]
  · intro hnone s client_fd
    unfold step
    simp only [hnone]
    cases hp : s.pending with
    | none => simp
    | some x => simp [hp]

/-- C7 at 10.10.16.205: identity pi205, secret 205. -/
theorem find_client_by_ip_allow_list_witness :
    find_client_by_ip (ip_text 10 10 16 205) = some 5 ∧
    (get_client init_database 5).client_id = [112, 105, 50, 48, 53] ∧
    (get_client init_database 5).ip_last_digit = 205 :=
  have h := (find_client_by_ip_allow_list 10 10 16 205 (by decide) (by decide) (by decide)
    (by decide)).2.1 (by decide)
  ⟨h.1, h.2.1, h.2.2.1⟩


/-! ## C8 and C9: the dispatcher -/

theorem scan_assign_slots (client_fd : Int) (hfd : 0 ≤ client_fd) (i : Nat)
    (ws : List WorkerThread)
    (h : ∀ w ∈ ws, (w.client_fd ≠ -1 ↔ w.is_busy = true)) :
    ∀ w ∈ (scan_assign client_fd i ws).1, (w.client_fd ≠ -1 ↔ w.is_busy = true) := by
  induction ws generalizing i with
  | nil => intro w hw; simp [scan_assign] at hw
  | cons x xs ih =>
    intro w hw
    unfold scan_assign at hw
    split at hw
    · rcases List.mem_cons.1 hw with hw | hw
      · subst hw
        simp only [ne_eq, iff_true]
        omega
      · exact h w (List.mem_cons_of_mem _ hw)
    · rcases List.mem_cons.1 hw with hw | hw
      · subst hw
        exact h _ (List.mem_cons_self _ _)
      · exact ih (i + 1) (fun w hw => h w (List.mem_cons_of_mem _ hw)) w hw

theorem scan_assign_length (client_fd : Int) (i : Nat) (ws : List WorkerThread) :
    (scan_assign client_fd i ws).1.length = ws.length := by
  induction ws generalizing i with
  | nil => rfl
  | cons x xs ih =>
    unfold scan_assign
    split
    · rfl
    · simp [ih]

theorem worker_finish_slots (ws : List WorkerThread) (q : WaitingQueue) (k : Nat)
    (h : ∀ w ∈ ws, (w.client_fd ≠ -1 ↔ w.is_busy = true)) :
    ∀ w ∈ (worker_finish ws q k).1, (w.client_fd ≠ -1 ↔ w.is_busy = true) := by
  intro w hw
  unfold worker_finish at hw
  simp only at hw
  split at hw
  · rename_i hne
    rcases List.mem_or_eq_of_mem_set hw with hw | hw
    · exact h w hw
    · subst hw
      simp only [ne_eq, iff_true]
      exact hne
  · rcases List.mem_or_eq_of_mem_set hw with hw | hw
    · exact h w hw
    · subst hw
      simp

theorem worker_finish_length (ws : List WorkerThread) (q : WaitingQueue) (k : Nat) :
    (worker_finish ws q k).1.length = ws.length := by
  unfold worker_finish
  simp only
  split <;> simp

theorem step_slots (d : Dispatcher) (ev : Event)
    (hev : ∀ ip fd, ev = Event.accept ip fd → 0 ≤ fd)
    (h : ∀ w ∈ d.workers, (w.client_fd ≠ -1 ↔ w.is_busy = true)) :
    (∀ w ∈ (step d ev).workers, (w.client_fd ≠ -1 ↔ w.is_busy = true)) ∧
    (step d ev).workers.length = d.workers.length := by
  cases ev with
  | accept ip fd =>
    unfold step
    simp only
    split
    · exact ⟨h, rfl⟩
    · split
      · exact ⟨h, rfl⟩
      · split
        · exact ⟨scan_assign_slots fd (hev ip fd rfl) 0 _ h, scan_assign_length _ _ _⟩
        · exact ⟨scan_assign_slots fd (hev ip fd rfl) 0 _ h, scan_assign_length _ _ _⟩
  | enqueue_pending =>
    unfold step
    simp only
    split
    · exact ⟨h, rfl⟩
    · exact ⟨h, rfl⟩
  | finish k =>
    unfold step
    simp only
    split
    · exact ⟨worker_finish_slots _ _ _ h, worker_finish_length _ _ _⟩
    · exact ⟨h, rfl⟩

theorem run_slots (evs : List Event) (d : Dispatcher)
    (hev : ∀ ip fd, Event.accept ip fd ∈ evs → 0 ≤ fd)
    (h : ∀ w ∈ d.workers, (w.client_fd ≠ -1 ↔ w.is_busy = true)) :
    (∀ w ∈ (run d evs).workers, (w.client_fd ≠ -1 ↔ w.is_busy = true)) ∧
    (run d evs).workers.length = d.workers.length := by
  induction evs generalizing d with
  | nil => exact ⟨h, rfl⟩
  | cons ev evs ih =>
    have hs := step_slots d ev (fun ip fd he => hev ip fd (by rw [he]; exact List.mem_cons_self _ _)) h
    have := ih (step d ev) (fun ip fd he => hev ip fd (List.mem_cons_of_mem _ he)) hs.1
    exact ⟨this.1, this.2.trans hs.2⟩

/-- C8. From the slot table of startup, after any sequence of steps of the
acceptor (accept and scan, enqueue) and of the workers (end of session), each
atomic and with connection handles `>= 0`, the table still has its five slots
and every slot has `client_fd != -1` exactly when `is_busy` is true. -/
theorem slot_busy_iff_attached (evs : List Event)
    (hev : ∀ ip fd, Event.accept ip fd ∈ evs → 0 ≤ fd) (w : Nat) :
    (run init_dispatcher evs).workers.length = MAX_WORKERS ∧
    (((run init_dispatcher evs).workers.getD w default).client_fd ≠ -1 ↔
      ((run init_dispatcher evs).workers.getD w default).is_busy = true) := by
  have h := run_slots evs init_dispatcher hev (by decide)
  refine ⟨h.2, ?_⟩
  rw [List.getD_eq_getElem?_getD]
  cases hw : (run init_dispatcher evs).workers[w]? with
  | none => decide
  | some x => exact h.1 x (List.getElem?_mem hw)

/-- C8 at slot 0 after the steps of `race_schedule`. -/
theorem slot_busy_iff_attached_witness :
    ((run init_dispatcher race_schedule).workers.getD 0 default).client_fd ≠ -1 ↔
      ((run init_dispatcher race_schedule).workers.getD 0 default).is_busy = true :=
  (slot_busy_iff_attached race_schedule (fun ip fd h => by
    simp [race_schedule] at h
    omega) 0).2

/-- C9 at its failing schedule. All five slots are busy when connection 15
arrives; the worker of slot 0 goes idle between the acceptor's scan and its
`enqueue`, so 15 waits in the queue beside an idle slot; connection 16, which
arrives later, is then assigned to slot 0 while 15 is still waiting. -/
theorem later_connection_overtakes_queued :
    contents (run init_dispatcher (race_schedule.take 8)).waiting_queue = [15] ∧
    ((run init_dispatcher (race_schedule.take 8)).workers.getD 0 default).is_busy = false ∧
    contents (run init_dispatcher race_schedule).waiting_queue = [15] ∧
    (run init_dispatcher race_schedule).workers.getD 0 default = ⟨1, true, 16⟩ := by
  decide


/-! ## The session loop -/

theorem read_buffer_eq (reads : Reads) (x : Option Bytes) (r : Reads) :
    read_buffer reads = (x, r) ↔ (read_buffer reads).1 = x ∧ r = reads.tail := by
  cases reads with
  | nil => simp [read_buffer, Prod.ext_iff, eq_comm]
  | cons d rest => simp [read_buffer, Prod.ext_iff, eq_comm]

theorem read_buffer_some_ne_nil (reads : Reads) (b : Bytes)
    (h : (read_buffer reads).1 = some b) : reads ≠ [] := by
  intro hn; subst hn; simp [read_buffer] at h

theorem process_account_open_rest (c : Nat) (db : DB) (reads : Reads) :
    (process_account_open c db reads).2.1.length ≤ reads.length := by
  unfold process_account_open
  dsimp only
  repeat' split
  all_goals simp_all only [read_buffer_eq, List.length_tail, le_refl]
  all_goals omega

theorem process_deposit_rest (c : Nat) (db : DB) (reads : Reads) :
    (process_deposit c db reads).2.1.length ≤ reads.length := by
  unfold process_deposit
  dsimp only
  repeat' split
  all_goals simp_all only [read_buffer_eq, List.length_tail, le_refl]
  all_goals omega

theorem process_withdraw_rest (c : Nat) (db : DB) (reads : Reads) :
    (process_withdraw c db reads).2.1.length ≤ reads.length := by
  unfold process_withdraw
  dsimp only
  repeat' split
  all_goals simp_all only [read_buffer_eq, List.length_tail, le_refl]
  all_goals omega


theorem continue_question_ends (loop : DB → Reads → List Msg → SessionResult) (n : Nat)
    (hloop : ∀ db reads sent, reads.length < n → (loop db reads sent).ending ≠ Ending.out_of_fuel)
    (db : DB) (reads : Reads) (sent : List Msg) (h : reads.length ≤ n) :
    (continue_question loop db reads sent).ending ≠ Ending.out_of_fuel := by
  unfold continue_question
  split
  · simp
  · rename_i heq
    split
    · simp
    · apply hloop
      rw [read_buffer_eq] at heq
      have hne := read_buffer_some_ne_nil _ _ heq.1
      have hpos : 0 < reads.length := List.length_pos.2 hne
      rw [heq.2, List.length_tail]
      omega

theorem handle_loop_ends (client fuel : Nat) (db : DB) (reads : Reads) (sent : List Msg)
    (h : reads.length < fuel) :
    (handle_loop client fuel db reads sent).ending ≠ Ending.out_of_fuel := by
  induction fuel generalizing db reads sent with
  | zero => omega
  | succ n ih =>
    unfold handle_loop
    split
    · simp
    · rename_i heq
      rw [read_buffer_eq] at heq
      have hne := read_buffer_some_ne_nil _ _ heq.1
      have hpos : 0 < reads.length := List.length_pos.2 hne
      have hrest := heq.2
      have hlen : (reads.tail).length < n := by rw [List.length_tail]; omega
      subst hrest
      split
      · exact continue_question_ends _ n (fun db reads sent hr => ih db reads sent hr) _ _ _
          (by have := process_account_open_rest client db reads.tail; omega)
      · exact continue_question_ends _ n (fun db reads sent hr => ih db reads sent hr) _ _ _
          (by have := process_deposit_rest client db reads.tail; omega)
      · exact continue_question_ends _ n (fun db reads sent hr => ih db reads sent hr) _ _ _
          (by have := process_withdraw_rest client db reads.tail; omega)
      · exact ih _ _ _ hlen

/-- A session always ends in a farewell or on a failed read: the fuel
`handle_client` gives its loop is never used up. -/
theorem handle_client_ends (worker_id client : Nat) (db : DB) (reads : Reads) :
    (handle_client worker_id client db reads).ending = Ending.farewell ∨
    (handle_client worker_id client db reads).ending = Ending.disconnected := by
  have h := handle_loop_ends client (reads.length + 1) db reads
    [Msg.welcome (get_client db client).client_id worker_id] (by omega)
  unfold handle_client
  cases he : (handle_loop client (reads.length + 1) db reads
    [Msg.welcome (get_client db client).client_id worker_id]).ending with
  | farewell => exact Or.inl rfl
  | disconnected => exact Or.inr rfl
  | out_of_fuel => exact absurd he h


/-! ## C10: the continue question -/

theorem strstr_iff_infix (hay needle : Bytes) : strstr hay needle = true ↔ needle <:+: hay := by
  induction hay with
  | nil =>
    simp only [strstr, List.isPrefixOf_iff_prefix, List.prefix_nil, List.infix_nil]
  | cons h t ih =>
    simp only [strstr, Bool.or_eq_true, List.isPrefixOf_iff_prefix, ih, List.infix_cons_iff]

theorem is_stop_reply_iff (buffer : Bytes) :
    is_stop_reply buffer = true ↔ ∃ tok ∈ stop_tokens, tok <:+: buffer := by
  simp only [is_stop_reply, Bool.or_eq_true, strstr_iff_infix, stop_tokens, List.mem_cons,
    List.mem_singleton, List.not_mem_nil, or_false, exists_eq_or_imp, exists_eq_left, or_assoc]

theorem buffer_of_text (line : Bytes) (h0 : 0 ∉ line) (hlen : line.length < BUFFER_SIZE) :
    buffer_of line = line := by
  unfold buffer_of cstr
  rw [List.take_of_length_le (by omega)]
  rw [List.takeWhile_eq_self_iff]
  intro x hx
  simp only [bne_iff_ne, ne_eq]
  intro h
  exact h0 (h ▸ hx)

theorem continue_question_sent (loop : DB → Reads → List Msg → SessionResult)
    (hloop : ∀ db reads sent, ∃ tail, (loop db reads sent).sent = sent ++ tail)
    (db : DB) (reads : Reads) (sent : List Msg) :
    ∃ tail, (continue_question loop db reads sent).sent = sent ++ tail := by
  unfold continue_question
  split
  · exact ⟨_, rfl⟩
  · split
    · exact ⟨_, rfl⟩
    · obtain ⟨tail, ht⟩ := hloop db _ (sent ++ [Msg.ask_more])
      exact ⟨Msg.ask_more :: tail, by rw [ht]; simp⟩

theorem handle_loop_sent (client fuel : Nat) (db : DB) (reads : Reads) (sent : List Msg) :
    ∃ tail, (handle_loop client fuel db reads sent).sent = sent ++ tail := by
  induction fuel generalizing db reads sent with
  | zero => exact ⟨[], by simp [handle_loop]⟩
  | succ n ih =>
    unfold handle_loop
    split
    · exact ⟨_, rfl⟩
    · split
      · obtain ⟨tail, ht⟩ := continue_question_sent _ (ih) _ _ _
        exact ⟨_, by rw [ht, List.append_assoc, List.append_assoc]⟩
      · obtain ⟨tail, ht⟩ := continue_question_sent _ (ih) _ _ _
        exact ⟨_, by rw [ht, List.append_assoc, List.append_assoc]⟩
      · obtain ⟨tail, ht⟩ := continue_question_sent _ (ih) _ _ _
        exact ⟨_, by rw [ht, List.append_assoc, List.append_assoc]⟩
      · obtain ⟨tail, ht⟩ := ih db _ (sent ++ [Msg.menu_prompt, Msg.unknown_menu])
        exact ⟨_, by rw [ht, List.append_assoc]⟩

/-- Every turn of the loop starts by sending the menu prompt. -/
theorem handle_loop_prompt (client fuel : Nat) (db : DB) (reads : Reads) (sent : List Msg) :
    ∃ tail, (handle_loop client (fuel + 1) db reads sent).sent
      = sent ++ Msg.menu_prompt :: tail := by
  unfold handle_loop
  split
  · exact ⟨[], rfl⟩
  · split
    · obtain ⟨tail, ht⟩ := continue_question_sent _ (handle_loop_sent client fuel) _ _ _
      exact ⟨_, by rw [ht, List.append_assoc, List.append_assoc]; rfl⟩
    · obtain ⟨tail, ht⟩ := continue_question_sent _ (handle_loop_sent client fuel) _ _ _
      exact ⟨_, by rw [ht, List.append_assoc, List.append_assoc]; rfl⟩
    · obtain ⟨tail, ht⟩ := continue_question_sent _ (handle_loop_sent client fuel) _ _ _
      exact ⟨_, by rw [ht, List.append_assoc, List.append_assoc]; rfl⟩
    · obtain ⟨tail, ht⟩ := handle_loop_sent client fuel db _
        (sent ++ [Msg.menu_prompt, Msg.unknown_menu])
      exact ⟨_, by rw [ht, List.append_assoc]; rfl⟩

/-- C10. For a reply line read at the continue question of `handle_client` (a
non-empty text line: no NUL byte, shorter than the buffer): if the line
contains one of the stop tokens as a substring, the goodbye is sent and the
session ends in farewell; if it contains none of them, whatever else it says,
the loop is entered again and the next message sent is the menu prompt. -/
theorem continue_question_stop_iff (client fuel : Nat) (db : DB) (line : Bytes) (rest : Reads)
    (sent : List Msg) (h_ne : line ≠ []) (h_nul : 0 ∉ line) (h_len : line.length < BUFFER_SIZE) :
    ((∃ tok ∈ stop_tokens, tok <:+: line) →
      continue_question (handle_loop client (fuel + 1)) db (line :: rest) sent
        = ⟨db, sent ++ [Msg.ask_more, Msg.goodbye], Ending.farewell⟩) ∧
    ((¬ ∃ tok ∈ stop_tokens, tok <:+: line) →
      continue_question (handle_loop client (fuel + 1)) db (line :: rest) sent
        = handle_loop client (fuel + 1) db rest (sent ++ [Msg.ask_more]) ∧
      ∃ tail, (continue_question (handle_loop client (fuel + 1)) db (line :: rest) sent).sent
        = sent ++ Msg.ask_more :: Msg.menu_prompt :: tail) := by
  have hbuf := buffer_of_text line h_nul h_len
  have hiff := is_stop_reply_iff (buffer_of line)
  rw [hbuf] at hiff
  have hread := read_buffer_cons line rest h_ne
  rw [hbuf] at hread
  constructor
  · intro h
    unfold continue_question
    simp only [hread, hiff.2 h, if_true]
  · intro h
    have hfalse : is_stop_reply line = false := by
      cases hs : is_stop_reply line with
      | false => rfl
      | true => exact absurd (hiff.1 hs) h
    have heq : continue_question (handle_loop client (fuel + 1)) db (line :: rest) sent
        = handle_loop client (fuel + 1) db rest (sent ++ [Msg.ask_more]) := by
      unfold continue_question
      simp only [hread, hfalse, Bool.false_eq_true, if_false]
    refine ⟨heq, ?_⟩
    obtain ⟨tail, ht⟩ := handle_loop_prompt client fuel db rest (sent ++ [Msg.ask_more])
    exact ⟨tail, by rw [heq, ht, List.append_assoc]; rfl⟩


/-- C10 on the replies "no" and "maybe" (each with its newline). -/
theorem continue_question_stop_iff_witness :
    continue_question (handle_loop 0 1) init_database [[110, 111, 10]] []
      = ⟨init_database, [Msg.ask_more, Msg.goodbye], Ending.farewell⟩ ∧
    continue_question (handle_loop 0 1) init_database [[109, 97, 121, 98, 101, 10]] []
      = handle_loop 0 1 init_database [] [Msg.ask_more] :=
  ⟨(continue_question_stop_iff 0 0 init_database [110, 111, 10] [] [] (by decide) (by decide)
      (by decide)).1 ⟨[110, 111], by decide, by decide⟩,
    ((continue_question_stop_iff 0 0 init_database [109, 97, 121, 98, 101, 10] [] []
      (by decide) (by decide) (by decide)).2 (by decide)).1⟩

/-! ## The locked regions of the registry operations -/

/-- The registry effect of `process_deposit` is that of its locked region, with
a positive amount, or nothing. -/
theorem process_deposit_region (s : Nat) (db : DB) (reads : Reads) :
    (process_deposit s db reads).1 = db ∨
    ∃ t j a, 0 < a ∧ (process_deposit s db reads).1 = deposit_region db t j a := by
  unfold process_deposit
  dsimp only
  repeat' split
  all_goals first
    | exact Or.inl rfl
    | exact Or.inr ⟨_, _, _, by omega, rfl⟩

theorem withdraw_region_paid (db : DB) (client j : Nat) (a : Int)
    (h : ¬ (get_account (get_client db client) j).balance < a) :
    (withdraw_region db client j a).1
      = set_balance db client j (wrap32 ((get_account (get_client db client) j).balance - a)) := by
  simp only [withdraw_region, h, if_false]

/-- The registry effect of `process_withdraw` is that of its locked region on
an own account, with a positive amount, or nothing. -/
theorem process_withdraw_region (client : Nat) (db : DB) (reads : Reads) :
    (process_withdraw client db reads).1 = db ∨
    ∃ j a, 0 < a ∧ (process_withdraw client db reads).1 = (withdraw_region db client j a).1 := by
  unfold process_withdraw
  dsimp only
  repeat' split
  all_goals first
    | exact Or.inl rfl
    | (rename_i hpos hlow
       exact Or.inr ⟨_, _, lt_of_not_le hpos, (withdraw_region_paid _ _ _ _ hlow).symm⟩)

/-- The registry effect of `process_account_open` is nothing, or that of its
append region after a capacity check that passed. -/
theorem process_account_open_regions (client : Nat) (db : DB) (reads : Reads) :
    (process_account_open client db reads).1 = db ∨
    (account_open_full db client = false ∧
      ∃ buffer, (process_account_open client db reads).1 = account_open_append db client buffer) := by
  unfold process_account_open
  dsimp only
  repeat' split
  all_goals first
    | exact Or.inl rfl
    | (rename_i hfull _ _ _ _
       exact Or.inr ⟨by simpa using hfull, _, rfl⟩)

/-! ## C11: concurrent deposits and withdrawals -/

theorem pending_deposits_set (c j : Nat) (pending : List (List Update)) (s : Nat) (u : Update)
    (us : List Update) (h : pending.getD s [] = u :: us) :
    pending_deposits c j (pending.set s us) = pending_deposits c j pending - deposit_amount c j u := by
  induction pending generalizing s with
  | nil => simp at h
  | cons l ls ih =>
    cases s with
    | zero =>
      simp only [List.getD_cons_zero] at h
      subst h
      simp only [pending_deposits, List.set_cons_zero, List.map_cons, List.sum_cons]
      omega
    | succ n =>
      simp only [List.getD_cons_succ] at h
      have := ih n h
      simp only [pending_deposits, List.set_cons_succ, List.map_cons, List.sum_cons] at this ⊢
      omega

theorem mem_of_getD (pending : List (List Update)) (s : Nat) (u : Update) (us : List Update)
    (h : pending.getD s [] = u :: us) : (u :: us) ∈ pending := by
  rw [List.getD_eq_getElem?_getD] at h
  cases hp : pending[s]? with
  | none => rw [hp] at h; simp at h
  | some l =>
    rw [hp] at h
    simp only [Option.getD_some] at h
    rw [← h]
    exact List.getElem?_mem hp

theorem deposit_amount_nonneg (c j : Nat) (u : Update) (h : 0 < update_amount u) :
    0 ≤ deposit_amount c j u := by
  cases u with
  | deposit t k a =>
    simp only [deposit_amount, update_amount] at *
    split <;> omega
  | withdraw cl k a => simp [deposit_amount]

theorem sum_deposit_amount_nonneg (c j : Nat) (l : List Update)
    (h : ∀ u ∈ l, 0 < update_amount u) : 0 ≤ (l.map (deposit_amount c j)).sum := by
  induction l with
  | nil => simp
  | cons u us ih =>
    simp only [List.map_cons, List.sum_cons]
    have h1 := deposit_amount_nonneg c j u (h u (List.mem_cons_self _ _))
    have h2 := ih (fun v hv => h v (List.mem_cons_of_mem _ hv))
    omega

theorem pending_deposits_nonneg (c j : Nat) (pending : List (List Update))
    (h : ∀ l ∈ pending, ∀ u ∈ l, 0 < update_amount u) : 0 ≤ pending_deposits c j pending := by
  induction pending with
  | nil => simp [pending_deposits]
  | cons l ls ih =>
    simp only [pending_deposits, List.map_cons, List.sum_cons] at ih ⊢
    have h1 := sum_deposit_amount_nonneg c j l (h l (List.mem_cons_self _ _))
    have h2 := ih (fun l' hl u hu => h l' (List.mem_cons_of_mem _ hl) u hu)
    omega


theorem net_sum_append (c j : Nat) (l : List Update) (u : Update) :
    net_sum c j (l ++ [u]) = net_sum c j l + net_amount c j u := by
  simp [net_sum]

theorem balance_after_set (db : DB) (h : RegOK db) (c j t k : Nat) (hc : c < MAX_CLIENTS)
    (hj : j < MAX_ACCOUNTS) (b : Int) :
    (get_account (get_client (set_balance db t k b) c) j).balance
      = if t = c ∧ k = j then b else (get_account (get_client db c) j).balance := by
  rw [get_account_set_balance]
  by_cases htk : t = c ∧ k = j
  · obtain ⟨rfl, rfl⟩ := htk
    rw [if_pos ⟨⟨rfl, by rw [h.length_eq]; exact hc⟩, rfl,
      by rw [h.accounts_length t hc]; exact hj⟩, if_pos ⟨rfl, rfl⟩]
  · rw [if_neg (fun hh => htk ⟨hh.1.1, hh.2.1⟩), if_neg htk]

/-- One locked region keeps the books: the registry stays well formed, the
amounts still pending stay positive, the balance plus the deposits still to
come stays within `int`, and the balance is the initial balance plus the net
sum of the updates that succeeded. -/
theorem take_lock_books (st : Shared) (s c j : Nat) (b0 : Int) (hc : c < MAX_CLIENTS)
    (hj : j < MAX_ACCOUNTS) (hok : RegOK st.db)
    (hpos : ∀ l ∈ st.pending, ∀ u ∈ l, 0 < update_amount u)
    (hbound : (get_account (get_client st.db c) j).balance
      + pending_deposits c j st.pending ≤ INT_MAX)
    (hsum : (get_account (get_client st.db c) j).balance = b0 + net_sum c j st.succeeded) :
    RegOK (take_lock st s).db ∧
    (∀ l ∈ (take_lock st s).pending, ∀ u ∈ l, 0 < update_amount u) ∧
    (get_account (get_client (take_lock st s).db c) j).balance
      + pending_deposits c j (take_lock st s).pending ≤ INT_MAX ∧
    (get_account (get_client (take_lock st s).db c) j).balance
      = b0 + net_sum c j (take_lock st s).succeeded := by
  unfold take_lock
  split
  · exact ⟨hok, hpos, hbound, hsum⟩
  · rename_i u us heq
    have hmem := mem_of_getD _ _ _ _ heq
    have hu : 0 < update_amount u := hpos _ hmem u (List.mem_cons_self _ _)
    have hpos' : ∀ l ∈ st.pending.set s us, ∀ v ∈ l, 0 < update_amount v := by
      intro l hl v hv
      rcases List.mem_or_eq_of_mem_set hl with hl | hl
      · exact hpos l hl v hv
      · subst hl
        exact hpos _ hmem v (List.mem_cons_of_mem _ hv)
    have hpd := pending_deposits_set c j _ _ _ _ heq
    have hnn := pending_deposits_nonneg c j _ hpos'
    have hrange := hok.in_range c j
    unfold INT_MIN INT_MAX at hrange
    unfold INT_MAX at hbound ⊢
    cases u with
    | deposit t k a =>
      simp only [update_amount] at hu
      simp only [run_update, deposit_region, if_true, net_sum_append, net_amount]
      refine ⟨regOK_set_balance _ hok _ _ _ (wrap32_range _), hpos', ?_, ?_⟩
      · rw [balance_after_set _ hok c j t k hc hj, hpd]
        simp only [deposit_amount] at hpd ⊢
        by_cases htk : t = c ∧ k = j
        · obtain ⟨rfl, rfl⟩ := htk
          simp only [and_self, if_true] at hpd ⊢
          rw [wrap32_id _ (by unfold INT_MIN; omega) (by unfold INT_MAX; omega)]
          omega
        · simp only [htk, if_false] at hpd ⊢
          omega
      · rw [balance_after_set _ hok c j t k hc hj]
        simp only [deposit_amount] at hpd
        by_cases htk : t = c ∧ k = j
        · obtain ⟨rfl, rfl⟩ := htk
          simp only [and_self, if_true] at hpd ⊢
          rw [wrap32_id _ (by unfold INT_MIN; omega) (by unfold INT_MAX; omega)]
          omega
        · simp only [htk, if_false] at hpd ⊢
          omega
    | withdraw cl k a =>
      simp only [update_amount] at hu
      simp only [deposit_amount, sub_zero] at hpd
      simp only [run_update, withdraw_region]
      by_cases hlow : (get_account (get_client st.db cl) k).balance < a
      · simp only [hlow, if_true, Bool.false_eq_true, if_false]
        exact ⟨hok, hpos', by rw [hpd]; exact hbound, hsum⟩
      · simp only [hlow, if_false, if_true, net_sum_append, net_amount]
        refine ⟨regOK_set_balance _ hok _ _ _ (wrap32_range _), hpos', ?_, ?_⟩
        · rw [balance_after_set _ hok c j cl k hc hj, hpd]
          by_cases htk : cl = c ∧ k = j
          · obtain ⟨rfl, rfl⟩ := htk
            simp only [and_self, if_true]
            rw [wrap32_id _ (by unfold INT_MIN; omega) (by unfold INT_MAX; omega)]
            omega
          · simp only [htk, if_false]
            omega
        · rw [balance_after_set _ hok c j cl k hc hj]
          by_cases htk : cl = c ∧ k = j
          · obtain ⟨rfl, rfl⟩ := htk
            simp only [and_self, if_true]
            rw [wrap32_id _ (by unfold INT_MIN; omega) (by unfold INT_MAX; omega)]
            omega
          · simp only [htk, if_false]
            omega

/-- No update is lost while the sums stay within `int`: in any interleaving of
the locked regions of validated deposits and withdrawals, the balance of an
account is its initial balance plus the deposits that succeeded minus the
withdrawals that succeeded, provided the initial balance plus all the deposits
the sessions make does not exceed INT_MAX. -/
theorem no_lost_update_within_int (st : Shared) (schedule : List Nat) (c j : Nat) (b0 : Int)
    (hc : c < MAX_CLIENTS) (hj : j < MAX_ACCOUNTS) (hok : RegOK st.db)
    (hpos : ∀ l ∈ st.pending, ∀ u ∈ l, 0 < update_amount u)
    (hbound : (get_account (get_client st.db c) j).balance
      + pending_deposits c j st.pending ≤ INT_MAX)
    (hsum : (get_account (get_client st.db c) j).balance = b0 + net_sum c j st.succeeded) :
    (get_account (get_client (interleave st schedule).db c) j).balance
      = b0 + net_sum c j (interleave st schedule).succeeded := by
  induction schedule generalizing st with
  | nil => exact hsum
  | cons s rest ih =>
    obtain ⟨h1, h2, h3, h4⟩ := take_lock_books st s c j b0 hc hj hok hpos hbound hsum
    exact ih (take_lock st s) h1 h2 h3 h4

/-- C11 at its failing input. Account 1 of pi200 holds 0; two sessions deposit
into it concurrently, one 2147483647 and the other 1.  In either order both
deposits succeed, and the balance ends at -2147483648, not at
0 + 2147483647 + 1. -/
theorem concurrent_deposit_overflow :
    (get_account (get_client concurrent_deposits.db 0) 0).balance = 0 ∧
    (interleave concurrent_deposits [0, 1]).succeeded
      = [Update.deposit 0 0 2147483647, Update.deposit 0 0 1] ∧
    (get_account (get_client (interleave concurrent_deposits [0, 1]).db 0) 0).balance
      = -2147483648 ∧
    (get_account (get_client (interleave concurrent_deposits [1, 0]).db 0) 0).balance
      = -2147483648 ∧
    0 + net_sum 0 0 (interleave concurrent_deposits [0, 1]).succeeded = 2147483648 := by
  decide

/-! ## C12: a failed read inside an operation -/

/-- C12 at its failing input. The session asks for a deposit ("입금") and the
read of the target id then fails: `process_deposit` returns, and
`handle_client` goes on to send the continue question and to read again; when
that read fails too, the session has sent the continue question after the
failed read. -/
theorem failed_read_in_operation_still_asks (client fuel : Nat) (db : DB) (rest : Reads)
    (sent : List Msg) :
    handle_loop client (fuel + 1) db ([236, 158, 133, 234, 184, 136, 10] :: [] :: rest) sent
      = continue_question (handle_loop client fuel) db rest
          (sent ++ [Msg.menu_prompt, Msg.deposit_target_prompt]) ∧
    handle_loop client (fuel + 1) db [[236, 158, 133, 234, 184, 136, 10], []] sent
      = ⟨db, sent ++ [Msg.menu_prompt, Msg.deposit_target_prompt, Msg.ask_more],
          Ending.disconnected⟩ := by
  have hm : get_menu_choice (buffer_of [236, 158, 133, 234, 184, 136, 10]) = 2 := by decide
  have h1 : ∀ rest : Reads,
      handle_loop client (fuel + 1) db ([236, 158, 133, 234, 184, 136, 10] :: [] :: rest) sent
      = continue_question (handle_loop client fuel) db rest
          (sent ++ [Msg.menu_prompt, Msg.deposit_target_prompt]) := by
    intro rest
    rw [handle_loop, read_buffer_cons _ _ (by decide)]
    simp only [hm]
    simp [process_deposit, read_buffer]
  refine ⟨h1 rest, ?_⟩
  rw [h1 []]
  simp [continue_question, read_buffer]


/-! ## C13: lines that are not numerals -/

theorem atoi_of_scan_d_none (s : Bytes) (h : scan_d s = none) : atoi s = 0 := by
  unfold scan_d at h
  have hv : digits_value 0 (split_sign (s.dropWhile isspace)).2 = 0 := by
    cases hp : (split_sign (s.dropWhile isspace)).2 with
    | nil => rfl
    | cons b t =>
      rw [hp] at h
      simp only at h
      by_cases hd : isdigit b = true
      · rw [if_pos hd] at h; exact absurd h (by simp)
      · simp only [digits_value, hd]
        rfl
  unfold atoi strtol
  simp only [hv]
  split <;> decide

/-- A value read by `atoi` that is no selection between 1 and `n` fails the
range test on `atoi - 1`. -/
theorem selection_rejected (s : Bytes) (n : Nat) (hn : n ≤ MAX_ACCOUNTS)
    (h : ¬ (1 ≤ atoi s ∧ atoi s ≤ (n : Int))) :
    wrap32 (atoi s - 1) < 0 ∨ wrap32 (atoi s - 1) ≥ (n : Int) := by
  have hr := atoi_range s
  unfold INT_MIN INT_MAX at hr
  unfold MAX_ACCOUNTS at hn
  unfold wrap32
  omega

/-- C13 as stated fails. Account 1 of pi200 holds 100; at the amount prompt of
a deposit the line "100abc" is supplied, which is no numeral: the deposit is
carried out with amount 100 and the balance becomes 200. -/
theorem deposit_accepts_numeral_with_trailing_text :
    is_numeral (cut_newline (buffer_of [49, 48, 48, 97, 98, 99, 10])) = false ∧
    (get_account (get_client (run_ops init_database open_and_deposit) 0) 0).balance = 100 ∧
    process_deposit 0 (run_ops init_database open_and_deposit)
        [[112, 105, 50, 48, 48, 10], [49, 10], [49, 48, 48, 97, 98, 99, 10]]
      = (set_balance (run_ops init_database open_and_deposit) 0 0 200, [],
          [Msg.deposit_target_prompt,
            Msg.deposit_select [112, 105, 50, 48, 48] [(1, [65])],
            Msg.deposit_amount_prompt,
            Msg.deposit_done [112, 105, 50, 48, 48] [65] 100 200]) ∧
    (get_account (get_client (set_balance (run_ops init_database open_and_deposit) 0 0 200) 0)
      0).balance = 200 := by
  decide

/-- C13, amended. A line supplied at a selection or amount prompt is read with
`atoi`, which gives 0 for a line that does not start (after white space and an
optional sign) with a digit.  In a registry reached by operations from
`init_database`, when that value is no selection between 1 and
`account_count`, the deposit or withdraw is aborted with the invalid-number
message, and when it is not a positive amount, with the invalid-amount
message; the registry is unchanged, and `handle_client` goes on to the
continue question after the operation. -/
theorem invalid_number_line_aborts (ops : List Op) (db : DB) (client fuel : Nat) (line : Bytes)
    (rest : Reads) (hdb : db = run_ops init_database ops) (h_ne : line ≠ []) :
    (scan_d (buffer_of line) = none → atoi (buffer_of line) = 0) ∧
    (∀ (target : Bytes) (t : Nat), target ≠ [] →
      find_target db (cut_newline (buffer_of target)) = some t →
      (get_client db t).account_count ≠ 0 →
      (¬ (1 ≤ atoi (buffer_of line) ∧
          atoi (buffer_of line) ≤ ((get_client db t).account_count : Int)) →
        process_deposit client db (target :: line :: rest)
          = (db, rest, [Msg.deposit_target_prompt,
              Msg.deposit_select (get_client db t).client_id (deposit_lines (get_client db t)),
              Msg.bad_account_number])) ∧
      (∀ sel : Bytes,
        1 ≤ atoi (buffer_of sel) ∧
          atoi (buffer_of sel) ≤ ((get_client db t).account_count : Int) →
        atoi (buffer_of line) ≤ 0 →
        process_deposit client db (target :: sel :: line :: rest)
          = (db, rest, [Msg.deposit_target_prompt,
              Msg.deposit_select (get_client db t).client_id (deposit_lines (get_client db t)),
              Msg.deposit_amount_prompt, Msg.bad_amount]))) ∧
    ((get_client db client).account_count ≠ 0 →
      (¬ (1 ≤ atoi (buffer_of line) ∧
          atoi (buffer_of line) ≤ ((get_client db client).account_count : Int)) →
        process_withdraw client db (line :: rest)
          = (db, rest, [show_accounts client db, Msg.withdraw_select_prompt,
              Msg.bad_account_number])) ∧
      (∀ sel secret : Bytes,
        1 ≤ atoi (buffer_of sel) ∧
          atoi (buffer_of sel) ≤ ((get_client db client).account_count : Int) →
        secret ≠ [] → atoi (buffer_of secret) = (get_client db client).ip_last_digit →
        atoi (buffer_of line) ≤ 0 →
        process_withdraw client db (sel :: secret :: line :: rest)
          = (db, rest, [show_accounts client db, Msg.withdraw_select_prompt,
              Msg.password_prompt, Msg.withdraw_amount_prompt, Msg.bad_amount]))) ∧
    (∀ (menu : Bytes) (reads : Reads) (sent : List Msg), menu ≠ [] →
      (get_menu_choice (buffer_of menu) = 2 →
        handle_loop client (fuel + 1) db (menu :: reads) sent
          = continue_question (handle_loop client fuel) (process_deposit client db reads).1
              (process_deposit client db reads).2.1
              (sent ++ [Msg.menu_prompt] ++ (process_deposit client db reads).2.2)) ∧
      (get_menu_choice (buffer_of menu) = 3 →
        handle_loop client (fuel + 1) db (menu :: reads) sent
          = continue_question (handle_loop client fuel) (process_withdraw client db reads).1
              (process_withdraw client db reads).2.1
              (sent ++ [Msg.menu_prompt] ++ (process_withdraw client db reads).2.2))) := by
  have hok : RegOK db := hdb ▸ regOK_run_ops ops _ regOK_init
  refine ⟨atoi_of_scan_d_none _, ?_, ?_, ?_⟩
  · intro target t htarget hfind hcount
    constructor
    · intro hbad
      have hrej := selection_rejected (buffer_of line) _ (hok.count_le t) hbad
      unfold process_deposit
      simp only [read_buffer_cons _ _ htarget, hfind, hcount, if_false,
        read_buffer_cons _ _ h_ne, hrej, if_true, List.cons_append, List.nil_append]
    · intro sel hsel hbad
      have hsel_ne : sel ≠ [] := nonempty_of_atoi_ne_zero sel (by omega)
      have hidx := selection_index (buffer_of sel) _ hsel.1 hsel.2
      unfold process_deposit
      simp only [read_buffer_cons _ _ htarget, hfind, hcount, if_false,
        read_buffer_cons _ _ hsel_ne, read_buffer_cons _ _ h_ne, hidx.2, hbad, if_true,
        List.cons_append, List.nil_append]
  · intro hcount
    constructor
    · intro hbad
      have hrej := selection_rejected (buffer_of line) _ (hok.count_le client) hbad
      unfold process_withdraw
      simp only [hcount, if_false, read_buffer_cons _ _ h_ne, hrej, if_true,
        List.cons_append, List.nil_append]
    · intro sel secret hsel hsec_ne hsec hbad
      have hsel_ne : sel ≠ [] := nonempty_of_atoi_ne_zero sel (by omega)
      have hidx := selection_index (buffer_of sel) _ hsel.1 hsel.2
      unfold process_withdraw
      simp only [hcount, if_false, read_buffer_cons _ _ hsel_ne, read_buffer_cons _ _ hsec_ne,
        read_buffer_cons _ _ h_ne, hidx.2, hsec, ne_eq, not_true_eq_false, hbad, if_true,
        List.cons_append, List.nil_append]
  · intro menu reads sent hmenu
    constructor
    · intro hm
      rw [handle_loop, read_buffer_cons _ _ hmenu]
      simp only [hm]
    · intro hm
      rw [handle_loop, read_buffer_cons _ _ hmenu]
      simp only [hm]

/-- C13 (amended) at pi200 with one account: the line "abc" at the selection
prompt of a withdraw. -/
theorem invalid_number_line_aborts_witness :
    scan_d (buffer_of [97, 98, 99, 10]) = none ∧
    process_withdraw 0 (run_ops init_database open_and_deposit) [[97, 98, 99, 10]]
      = (run_ops init_database open_and_deposit, [],
          [show_accounts 0 (run_ops init_database open_and_deposit), Msg.withdraw_select_prompt,
            Msg.bad_account_number]) :=
  ⟨by decide,
    ((invalid_number_line_aborts open_and_deposit (run_ops init_database open_and_deposit) 0 0
      [97, 98, 99, 10] [] rfl (by decide)).2.2.1 (by decide)).1 (by decide)⟩

/-! ## C14: the capacity check and the append are separate locked regions -/

/-- C14 at its failing schedule. Two sessions of pi200, which holds four
accounts: both run the capacity check while `account_count` is 4, then both
append.  The second append stores at index 5, outside `accounts[5]`, and
`account_count` becomes 6. -/
theorem open_account_race_exceeds_cap :
    (get_client (open_run (open_race.take 10)).db 0).account_count = 4 ∧
    (get_client (open_run open_race).db 0).account_count = 6 ∧
    (open_run open_race).stores = [0, 1, 2, 3, 4, 5] := by
  decide


end Bank
